import Mathlib

/-!
Verification development for the pyuvdata MeasurementSet utilities
(`pyuvdata/ms_utils.py`, `pyuvdata/uvcal/ms_cal.py`) and the frequency-axis
helpers (`pyuvdata/utils/frequency.py`).

Python floats are modelled as exact rationals (`ℚ`); all float values
appearing in the code and in the claims (epochs, times, frequencies,
tolerances) are exactly representable, and the only operations used are
field arithmetic and comparisons, so `ℚ` is a faithful model.
`np.isclose(a, b, rtol, atol)` is `|a - b| ≤ atol + rtol * |b|`.
NumPy integer arrays are modelled as `List ℤ` (or `List ℕ` for index
arrays), strings as `String`.
-/

/-- `np.isclose(a, b, rtol=rtol, atol=atol)` for scalars:
`|a - b| <= atol + rtol * |b|`. -/
def npIsclose (rtol atol a b : ℚ) : Bool := |a - b| ≤ atol + rtol * |b|

/-- `np.allclose(xs, b, rtol, atol)`: every element of `xs` is close to `b`. -/
def npAllclose (rtol atol : ℚ) (xs : List ℚ) (b : ℚ) : Bool :=
  xs.all (fun a => npIsclose rtol atol a b)

/-- `np.mean` of a list of rationals (0 on the empty list; the code never
takes the mean of an empty selection on the paths the claims exercise). -/
def npMean (l : List ℚ) : ℚ := l.sum / l.length

/-- `np.diff`: successive differences `l[1:] - l[:-1]`. -/
def npDiff (l : List ℚ) : List ℚ := (l.zip l.tail).map (fun p => p.2 - p.1)

/-- Elementwise boolean-mask selection `arr[mask]` (NumPy fancy indexing by
a boolean array of the same length). -/
def maskedGet {α : Type} (l : List α) (mask : List Bool) : List α :=
  ((l.zip mask).filter (fun p => p.2)).map Prod.fst

/-- `arr[mask] = vals`: scatter `vals` into the `True` positions of `mask`. -/
def maskedSet {α : Type} : List α → List Bool → List α → List α
  | [], _, _ => []
  | x :: xs, [], _ => x :: xs
  | _ :: xs, true :: ms, v :: vs => v :: maskedSet xs ms vs
  | x :: xs, true :: ms, [] => x :: maskedSet xs ms []
  | x :: xs, false :: ms, vs => x :: maskedSet xs ms vs

/-- Stable insertion into a `≤`-sorted list (used to model NumPy sorting
primitives; NumPy's default sort is unspecified on ties, we pick the stable
order). -/
def insertLe {α : Type} (le : α → α → Bool) (x : α) : List α → List α
  | [] => [x]
  | y :: ys => if le x y then x :: y :: ys else y :: insertLe le x ys

/-- Stable insertion sort, used to model `np.sort` / `sorted`. -/
def insertionSort {α : Type} (le : α → α → Bool) (l : List α) : List α :=
  l.foldr (insertLe le) []

/-- Sorted insertion skipping values already present (helper for
`sorted(set(...))` / `np.unique` on integer arrays). -/
def insertUniqueZ (x : ℤ) : List ℤ → List ℤ
  | [] => [x]
  | y :: ys =>
    if x < y then x :: y :: ys else if x = y then y :: ys else y :: insertUniqueZ x ys

/-- `sorted(set(l))` = `np.unique(l)` for integer arrays: the strictly
ascending enumeration of the distinct elements. -/
def sortedUniqueZ (l : List ℤ) : List ℤ := l.foldr insertUniqueZ []

theorem mem_insertUniqueZ (x : ℤ) (l : List ℤ) :
    ∀ b ∈ insertUniqueZ x l, b = x ∨ b ∈ l := by
  induction l with
  | nil => intro b hb; simpa [insertUniqueZ] using hb
  | cons z zs ihz =>
    intro b hb
    rw [insertUniqueZ] at hb
    by_cases hz1 : x < z
    · rw [if_pos hz1] at hb
      rcases List.mem_cons.mp hb with hb | hb
      · exact Or.inl hb
      · exact Or.inr hb
    · by_cases hz2 : x = z
      · rw [if_neg hz1, if_pos hz2] at hb
        exact Or.inr hb
      · rw [if_neg hz1, if_neg hz2] at hb
        rcases List.mem_cons.mp hb with hb | hb
        · exact Or.inr (by simp [hb])
        · rcases ihz b hb with h' | h'
          · exact Or.inl h'
          · exact Or.inr (by simp [h'])

theorem insertUniqueZ_sorted (x : ℤ) :
    ∀ l : List ℤ, List.Sorted (· < ·) l → List.Sorted (· < ·) (insertUniqueZ x l) := by
  intro l
  induction l with
  | nil => intro _; simp [insertUniqueZ]
  | cons y ys ih =>
    intro h
    rw [List.sorted_cons] at h
    obtain ⟨hy, hys⟩ := h
    by_cases h1 : x < y
    · rw [insertUniqueZ, if_pos h1, List.sorted_cons]
      refine ⟨fun b hb => ?_, List.sorted_cons.mpr ⟨hy, hys⟩⟩
      rcases List.mem_cons.mp hb with hb | hb
      · exact hb ▸ h1
      · exact h1.trans (hy b hb)
    · by_cases h2 : x = y
      · rw [insertUniqueZ, if_neg h1, if_pos h2, List.sorted_cons]
        exact ⟨hy, hys⟩
      · rw [insertUniqueZ, if_neg h1, if_neg h2, List.sorted_cons]
        have hyx : y < x := lt_of_le_of_ne (not_lt.mp h1) (Ne.symm h2)
        refine ⟨fun b hb => ?_, ih hys⟩
        rcases mem_insertUniqueZ x ys b hb with hb' | hb'
        · exact hb' ▸ hyx
        · exact hy b hb'

theorem sortedUniqueZ_sorted (l : List ℤ) : List.Sorted (· < ·) (sortedUniqueZ l) := by
  induction l with
  | nil => simp [sortedUniqueZ]
  | cons x xs ih => exact insertUniqueZ_sorted x _ ih

/-! ### String helpers

`String.splitOn`, `String.toInt?` and friends do not reduce in the kernel,
so we use explicit list-of-characters implementations mirroring the Python
operations `sep.split`, `in` (substring test), `int(...)`, `float(...)`. -/

/-- `pat` is a prefix of `s` (character lists). -/
def listIsPrefixOf {α : Type} [DecidableEq α] : List α → List α → Bool
  | [], _ => true
  | _ :: _, [] => false
  | a :: as, b :: bs => a = b && listIsPrefixOf as bs

/-- `pat in s` (substring containment on character lists). -/
def listContainsSub {α : Type} [DecidableEq α] : List α → List α → Bool
  | [], pat => listIsPrefixOf pat []
  | a :: s', pat => listIsPrefixOf pat (a :: s') || listContainsSub s' pat

/-- Python's `pat in s` substring test. -/
def strContainsSub (s pat : String) : Bool := listContainsSub s.data pat.data

theorem listIsPrefixOf_refl {α : Type} [DecidableEq α] (l : List α) :
    listIsPrefixOf l l = true := by
  induction l with
  | nil => rfl
  | cons a as ih => simp [listIsPrefixOf, ih]

theorem listContainsSub_of_prefixOf {α : Type} [DecidableEq α] (s p : List α)
    (h : listIsPrefixOf p s = true) : listContainsSub s p = true := by
  cases s with
  | nil => rw [listContainsSub]; exact h
  | cons a s' => rw [listContainsSub]; simp [h]

theorem listContainsSub_append {α : Type} [DecidableEq α] (a p : List α) :
    listContainsSub (a ++ p) p = true := by
  induction a with
  | nil =>
    rw [List.nil_append]
    exact listContainsSub_of_prefixOf p p (listIsPrefixOf_refl p)
  | cons x xs ih =>
    rw [List.cons_append, listContainsSub]
    simp [ih]

theorem strContainsSub_append (s v : String) : strContainsSub (s ++ v) v = true := by
  rw [strContainsSub, String.data_append]
  exact listContainsSub_append s.data v.data

/-- Python `line.split(";")` (single-character separator). -/
def splitOnCharAux (sep : Char) : List Char → List Char → List (List Char)
  | [], acc => [acc.reverse]
  | c :: cs, acc =>
    if c = sep then acc.reverse :: splitOnCharAux sep cs []
    else splitOnCharAux sep cs (c :: acc)

/-- Python `s.split(sep)` for a single-character separator. -/
def splitOnChar (sep : Char) (s : String) : List String :=
  (splitOnCharAux sep s.data []).map (fun l => String.mk l)

/-- Python `int(s)` restricted to an optional sign followed by digits
(`none` models the `ValueError` raised on any other input). -/
def parseIntAux : List Char → Option ℕ
  | [] => none
  | l => l.foldlM (fun acc c => if c.isDigit then some (acc * 10 + (c.toNat - 48)) else none) 0

def parseInt (s : String) : Option ℤ :=
  match s.data with
  | '-' :: rest => (parseIntAux rest).map (fun n => -(n : ℤ))
  | '+' :: rest => (parseIntAux rest).map (fun n => (n : ℤ))
  | l => (parseIntAux l).map (fun n => (n : ℤ))

/-- Python `float(s)` / `np.float64(s)` restricted to decimal literals
`[sign] digits [. digits]` (`none` models the error raised otherwise;
exponents never occur in the histories the claims exercise). -/
def parseDecimalAux : List Char → Option ℚ
  | l =>
    match l.span (fun c => c ≠ '.') with
    | (intPart, []) => (parseIntAux intPart).map (fun n => (n : ℚ))
    | (intPart, _ :: fracPart) =>
      match parseIntAux intPart, parseIntAux fracPart with
      | some n, some f => some ((n : ℚ) + (f : ℚ) / (10 : ℚ) ^ fracPart.length)
      | some n, none => if fracPart = [] then some ((n : ℚ)) else none
      | none, _ => none

def parseFloat (s : String) : Option ℚ :=
  match s.data with
  | '-' :: rest => (parseDecimalAux rest).map (fun q => -q)
  | '+' :: rest => parseDecimalAux rest
  | l => parseDecimalAux l

/-! ## Coordinate Frame Translator (`pyuvdata/ms_utils.py` lines 71-222)

`COORD_PYUVDATA2CASA_DICT` maps CASA reference-frame names to an optional
(astropy frame name, epoch) pair; `None` entries are frames CASA knows but
pyuvdata does not translate. Epochs are Julian/Besselian years, all integral
floats in the source. -/

def COORD_PYUVDATA2CASA_DICT : List (String × Option (String × ℚ)) :=
  [("J2000", some ("fk5", 2000)),
   ("JNAT", none),
   ("JMEAN", none),
   ("JTRUE", none),
   ("APP", some ("gcrs", 2000)),
   ("B1950", some ("fk4", 1950)),
   ("B1950_VLA", some ("fk4", 1979)),
   ("BMEAN", none),
   ("BTRUE", none),
   ("GALACTIC", none),
   ("HADEC", none),
   ("AZEL", none),
   ("AZELSW", none),
   ("AZELNE", none),
   ("AZELGEO", none),
   ("AZELSWGEO", none),
   ("AZELNEGEO", none),
   ("ECLIPTIC", none),
   ("MECLIPTIC", none),
   ("TECLIPTIC", none),
   ("SUPERGAL", none),
   ("ITRF", none),
   ("TOPO", none),
   ("ICRS", some ("icrs", 2000))]

/-- `_parse_pyuvdata_frame_ref`: reverse lookup of `(frame, epoch)` in
`COORD_PYUVDATA2CASA_DICT` (a `None` epoch is treated as 2000.0). The Python
dict comprehension keeps the last entry for a repeated key, hence the
`foldl`; `none` models both the raise and the warn-and-return-`None`
failure modes. -/
def _parse_pyuvdata_frame_ref (frame_name : String) (epoch_val : Option ℚ) :
    Option String :=
  let key : String × ℚ := (frame_name, epoch_val.getD 2000)
  COORD_PYUVDATA2CASA_DICT.foldl
    (fun acc kv => if kv.2 = some key then some kv.1 else acc) none

/-- Outcome of `_parse_casa_frame_ref`. -/
inductive CasaFrameRef where
  | found : String → ℚ → CasaFrameRef
  | notYetSupported : CasaFrameRef
  | unknownFrame : CasaFrameRef
deriving DecidableEq

/-- `_parse_casa_frame_ref`: forward lookup of a CASA frame name.
A `None` table entry raises `NotImplementedError` (`notYetSupported`); a
missing key raises `ValueError` (`unknownFrame`). -/
def _parse_casa_frame_ref (ref_name : String) : CasaFrameRef :=
  match COORD_PYUVDATA2CASA_DICT.lookup ref_name with
  | some (some (f, e)) => .found f e
  | some none => .notYetSupported
  | none => .unknownFrame

/-- C2: for every (frame, epoch) pair appearing as a non-`None` value of the
coordinate lookup table, translating pyuvdata -> CASA and back returns
exactly the original pair. -/
theorem casa_frame_roundtrip (f : String) (e : ℚ)
    (h : some (f, e) ∈ COORD_PYUVDATA2CASA_DICT.map Prod.snd) :
    ∃ c, _parse_pyuvdata_frame_ref f (some e) = some c ∧
      _parse_casa_frame_ref c = CasaFrameRef.found f e := by
  simp only [COORD_PYUVDATA2CASA_DICT, List.map_cons, List.map_nil, List.mem_cons,
    List.not_mem_nil, Option.some.injEq, Prod.mk.injEq, reduceCtorEq, false_or,
    or_false] at h
  rcases h with ⟨hf, he⟩ | ⟨hf, he⟩ | ⟨hf, he⟩ | ⟨hf, he⟩ | ⟨hf, he⟩ <;>
      subst hf <;> subst he
  · exact ⟨"J2000", by simp [_parse_pyuvdata_frame_ref, COORD_PYUVDATA2CASA_DICT,
      List.foldl, ((by norm_num : ((1979:ℚ)) ≠ 1950)), ((by norm_num : ((1950:ℚ)) ≠ 1979))], by simp [_parse_casa_frame_ref, COORD_PYUVDATA2CASA_DICT,
      List.lookup, String.reduceBEq]⟩
  · exact ⟨"APP", by simp [_parse_pyuvdata_frame_ref, COORD_PYUVDATA2CASA_DICT,
      List.foldl, ((by norm_num : ((1979:ℚ)) ≠ 1950)), ((by norm_num : ((1950:ℚ)) ≠ 1979))], by simp [_parse_casa_frame_ref, COORD_PYUVDATA2CASA_DICT,
      List.lookup, String.reduceBEq]⟩
  · exact ⟨"B1950", by simp [_parse_pyuvdata_frame_ref, COORD_PYUVDATA2CASA_DICT,
      List.foldl, ((by norm_num : ((1979:ℚ)) ≠ 1950)), ((by norm_num : ((1950:ℚ)) ≠ 1979))], by simp [_parse_casa_frame_ref, COORD_PYUVDATA2CASA_DICT,
      List.lookup, String.reduceBEq]⟩
  · exact ⟨"B1950_VLA", by simp [_parse_pyuvdata_frame_ref, COORD_PYUVDATA2CASA_DICT,
      List.foldl, ((by norm_num : ((1979:ℚ)) ≠ 1950)), ((by norm_num : ((1950:ℚ)) ≠ 1979))], by simp [_parse_casa_frame_ref, COORD_PYUVDATA2CASA_DICT,
      List.lookup, String.reduceBEq]⟩
  · exact ⟨"ICRS", by simp [_parse_pyuvdata_frame_ref, COORD_PYUVDATA2CASA_DICT,
      List.foldl, ((by norm_num : ((1979:ℚ)) ≠ 1950)), ((by norm_num : ((1950:ℚ)) ≠ 1979))], by simp [_parse_casa_frame_ref, COORD_PYUVDATA2CASA_DICT,
      List.lookup, String.reduceBEq]⟩

/-- Witness for C2 at the concrete pair ("fk5", 2000.0). -/
theorem casa_frame_roundtrip_witness :
    ∃ c, _parse_pyuvdata_frame_ref "fk5" (some 2000) = some c ∧
      _parse_casa_frame_ref c = CasaFrameRef.found "fk5" 2000 :=
  casa_frame_roundtrip "fk5" 2000 (by simp [COORD_PYUVDATA2CASA_DICT])

/-! ## Calibration main-table writer row budget
(`pyuvdata/uvcal/ms_cal.py`, `write_ms_cal`, lines 380-456)

The writer computes `Nants_casa = np.max(antenna_numbers) + 1` and calls
`ms.addrows(self.Ntimes * self.Nfreqs * Nants_casa)`. Every per-row scalar
column it then writes (`TIME`, `FIELD_ID`, `SPECTRAL_WINDOW_ID`, `ANTENNA1`,
`ANTENNA2`, `INTERVAL`, `SCAN_NUMBER`, `OBSERVATION_ID`) is built as
`np.tile(np.repeat(per_time_values, Nants_casa), self.Nspws)` (or
`np.repeat(np.arange(self.Nspws), Nants_casa * self.Ntimes)`), i.e. has
length `Nspws * Ntimes * Nants_casa`, and the per-spw `putcol` calls write
blocks of `Nants_casa * Ntimes` rows at offsets `count * Nants_casa * Ntimes`
for `count < Nspws`. -/

/-- `Nants_casa = np.max(self.antenna_numbers) + 1` (padded antenna count). -/
def nantsCasa (antenna_numbers : List ℕ) : ℕ := (antenna_numbers.foldl max 0) + 1

/-- Number of rows pre-allocated by `write_ms_cal`:
`self.Ntimes * self.Nfreqs * Nants_casa`. -/
def write_ms_cal_addrows (Ntimes Nfreqs : ℕ) (antenna_numbers : List ℕ) : ℕ :=
  Ntimes * Nfreqs * nantsCasa antenna_numbers

/-- Length of each per-row scalar column written by `write_ms_cal`:
`len(np.tile(np.repeat(time_array, Nants_casa), self.Nspws))`. -/
def write_ms_cal_scalar_col_len (Ntimes Nspws : ℕ) (antenna_numbers : List ℕ) : ℕ :=
  Nspws * (Ntimes * nantsCasa antenna_numbers)

/-- Total number of rows covered by the per-spectral-window `putcol` data
writes: `Nspws` blocks of `Nants_casa * self.Ntimes` rows. -/
def write_ms_cal_data_rows (Ntimes Nspws : ℕ) (antenna_numbers : List ℕ) : ℕ :=
  Nspws * (nantsCasa antenna_numbers * Ntimes)

/-- C1 (code bug): for a bandpass object with `Ntimes = 1`, `Nspws = 1`,
`Nfreqs = 2` and antenna numbers `[0]`, the writer pre-allocates
`Ntimes * Nfreqs * Nants_casa = 2` rows, while the claimed (and internally
consistent) row budget `Ntimes * Nspws * paddedAntennaCount` is 1 — the
length of every column array the writer then writes. -/
theorem write_ms_cal_addrows_mismatch :
    write_ms_cal_addrows 1 2 [0] = 2 ∧
    1 * 1 * nantsCasa [0] = 1 ∧
    write_ms_cal_scalar_col_len 1 1 [0] = 1 ∧
    write_ms_cal_data_rows 1 1 [0] = 1 ∧
    write_ms_cal_addrows 1 2 [0] ≠ 1 * 1 * nantsCasa [0] := by
  decide

/-! ## Calibration-table read: time deduplication
(`pyuvdata/uvcal/ms_cal.py`, `read_ms_cal`, lines 216-244)

The reader iterates the raw per-row `TIME` values keeping a Python dict
`time_dict` from raw timestamp to assigned index and a running counter
`time_count`. For a timestamp not already a dict key it evaluates
`np.isclose(list(time_dict), time, rtol, atol)`; on a match it stores
`np.where(close_check)[0][0]` — the *position* of the first close key in
insertion order — otherwise it stores `time_count` and increments it.
The state keeps the dict as parallel `keys`/`vals` lists in insertion
order (Python dicts preserve insertion order). -/

structure TimeDedupState where
  keys : List ℚ
  vals : List ℕ
  count : ℕ
deriving DecidableEq

def timeDedupStep (rtol atol : ℚ) (acc : TimeDedupState × List ℕ) (t : ℚ) :
    TimeDedupState × List ℕ :=
  let (st, rows) := acc
  match ((st.keys.zip st.vals).find? (fun kv => kv.1 = t)).map Prod.snd with
  | some v => (st, rows ++ [v])
  | none =>
    match st.keys.findIdx? (fun k => npIsclose rtol atol k t) with
    | some p =>
      (⟨st.keys ++ [t], st.vals ++ [p], st.count⟩, rows ++ [p])
    | none =>
      (⟨st.keys ++ [t], st.vals ++ [st.count], st.count + 1⟩, rows ++ [st.count])

/-- The row-to-time-index map and final `time_count` (= `Ntimes`) computed by
the `read_ms_cal` time-deduplication loop, with the tolerances
`rtol = self._time_array.tols[0] * 86400` and
`atol = self._time_array.tols[1] * 86400` taken as parameters. -/
def read_ms_cal_time_dedup (rtol atol : ℚ) (times : List ℚ) : List ℕ × ℕ :=
  let (st, rows) := times.foldl (timeDedupStep rtol atol) (⟨[], [], 0⟩, [])
  (rows, st.count)

/-- C3 (code bug): with `rtol = 0`, `atol = 1` the raw timestamp sequence
`[0, 10, 1/2, 20, 41/2]` produces the row map `[0, 1, 0, 2, 3]` with
`Ntimes = time_count = 3`: the last row is assigned index 3, the dict
*position* of its close match (the key `20`) rather than that key's stored
index 2, and 3 is out of range for the `Ntimes`-length time arrays.
(The spec's own example behaves as documented: `[100, 100 + 1e-7, 200]`
with an absolute tolerance of `1e-3` collapses to 2 indices.) -/
theorem read_ms_cal_time_dedup_invalid_index :
    read_ms_cal_time_dedup 0 1 [0, 10, 1/2, 20, 41/2] = ([0, 1, 0, 2, 3], 3) ∧
    ¬ ((read_ms_cal_time_dedup 0 1 [0, 10, 1/2, 20, 41/2]).1.all
        (fun v => v < (read_ms_cal_time_dedup 0 1 [0, 10, 1/2, 20, 41/2]).2)) ∧
    (read_ms_cal_time_dedup 0 (1/1000) [100, 100 + 1/10000000, 200]).2 = 2 := by
  norm_num [read_ms_cal_time_dedup, timeDedupStep, npIsclose, List.findIdx?,
    List.find?, abs_le, List.foldl]

/-! ## Frequency-axis validator (`pyuvdata/utils/frequency.py`)

### Contiguity check (`_check_flex_spw_contiguous`, lines 13-51) -/

/-- Outcome of `_check_flex_spw_contiguous`: pass, the internal-consistency
`assert` fires (`AssertionError`, including the NumPy failures when exactly
one argument is `None`), or the contiguity `ValueError` is raised. -/
inductive ContigResult where
  | ok : ContigResult
  | assertErr : ContigResult
  | valueErr : ContigResult
deriving DecidableEq

/-- `np.sum(flex_spw_id_array[1:] != flex_spw_id_array[:-1])`: the number of
transition points between consecutive entries. -/
def nBreaks (flex : List ℤ) : ℕ :=
  ((flex.zip flex.tail).filter (fun p => p.1 ≠ p.2)).length

/-- `_check_flex_spw_contiguous(spw_array, flex_spw_id_array)`:
no-op when both arguments are `None`; asserts
`np.unique(flex_spw_id_array) == np.unique(spw_array)`; raises `ValueError`
unless the number of breaks + 1 equals `spw_array.size`. -/
def _check_flex_spw_contiguous (spw_array flex_spw_id_array : Option (List ℤ)) :
    ContigResult :=
  match spw_array, flex_spw_id_array with
  | none, none => .ok
  | some spw, some flex =>
    if sortedUniqueZ flex = sortedUniqueZ spw then
      if nBreaks flex + 1 = spw.length then .ok else .valueErr
    else .assertErr
  | _, _ => .assertErr

/-- C6: under the function's own internal-consistency precondition (the
window ids appearing per channel are exactly the declared windows), the
contiguity check passes iff the per-channel window-id sequence has exactly
(number of windows - 1) transition points, and raises `ValueError`
otherwise; moreover `[0,0,0,1,1,2,2,2]` with `spw_array=[0,1,2]` passes and
`[0,1,0,1]` with the same `spw_array` raises. -/
theorem check_flex_spw_contiguous_spec (spw flex : List ℤ)
    (h : sortedUniqueZ flex = sortedUniqueZ spw) :
    (_check_flex_spw_contiguous (some spw) (some flex) = .ok ↔
      nBreaks flex + 1 = spw.length) ∧
    (_check_flex_spw_contiguous (some spw) (some flex) ≠ .ok →
      _check_flex_spw_contiguous (some spw) (some flex) = .valueErr) ∧
    _check_flex_spw_contiguous (some [0, 1, 2]) (some [0, 0, 0, 1, 1, 2, 2, 2]) = .ok ∧
    _check_flex_spw_contiguous (some [0, 1, 2]) (some [0, 1, 0, 1]) ≠ .ok := by
  refine ⟨?_, ?_, by decide, by decide⟩
  · rw [_check_flex_spw_contiguous, if_pos h]
    constructor
    · intro hok
      by_contra hne
      rw [if_neg hne] at hok
      exact ContigResult.noConfusion hok
    · intro heq
      rw [if_pos heq]
  · intro hne
    rw [_check_flex_spw_contiguous, if_pos h] at hne ⊢
    by_cases heq : nBreaks flex + 1 = spw.length
    · exact absurd (by rw [if_pos heq]) hne
    · rw [if_neg heq]

/-- Witness for C6 at the spec's concrete passing example. -/
theorem check_flex_spw_contiguous_spec_witness :
    _check_flex_spw_contiguous (some [0, 1, 2]) (some [0, 0, 0, 1, 1, 2, 2, 2]) = .ok ∧
    nBreaks [0, 0, 0, 1, 1, 2, 2, 2] + 1 = [0, 1, 2].length :=
  ⟨(check_flex_spw_contiguous_spec [0, 1, 2] [0, 0, 0, 1, 1, 2, 2, 2]
      (by decide)).2.2.1,
   (check_flex_spw_contiguous_spec [0, 1, 2] [0, 0, 0, 1, 1, 2, 2, 2]
      (by decide)).1.mp
     ((check_flex_spw_contiguous_spec [0, 1, 2] [0, 0, 0, 1, 1, 2, 2, 2]
        (by decide)).2.2.1)⟩

/-! ### Even-spacing check (`_check_freq_spacing`, lines 54-137) -/

/-- Minimum of a rational list (0 on empty; only used on nonempty data). -/
def listMinQ (l : List ℚ) : ℚ :=
  match l with
  | [] => 0
  | x :: xs => xs.foldl min x

/-- Maximum of a rational list (0 on empty). -/
def listMaxQ (l : List ℚ) : ℚ :=
  match l with
  | [] => 0
  | x :: xs => xs.foldl max x

/-- Modelled from the spec: `tools._test_array_constant` lives in
`pyuvdata/utils/tools.py`, which is not part of the sources; per the spec,
"consecutive-channel frequency deltas must be constant within tolerance",
i.e. an array is constant within `(rtol, atol)` when its extreme values are
`np.isclose`. Arrays with at most one element are trivially constant. -/
def _test_array_constant (tols : ℚ × ℚ) (l : List ℚ) : Bool :=
  if l.length ≤ 1 then true else npIsclose tols.1 tols.2 (listMinQ l) (listMaxQ l)

/-- Outcome of `_check_freq_spacing`. -/
inductive FreqSpacingResult where
  | flags : Bool → Bool → FreqSpacingResult
  | spacingRaise : FreqSpacingResult
  | chanwidthRaise : FreqSpacingResult
  | contigAssertErr : FreqSpacingResult
  | contigValueErr : FreqSpacingResult
deriving DecidableEq

/-- The per-iteration masks of the `for spw_id in [None] if spw_array is
None else spw_array` loop: `None` stands for `Ellipsis` (whole array);
`spw_id == flex_spw_id_array` with `spw_id = None` is elementwise `False`. -/
def spacingMasks (spw_array flex_spw_id_array : Option (List ℤ)) :
    List (Option (List Bool)) :=
  match spw_array with
  | none =>
    [match flex_spw_id_array with
     | none => none
     | some fl => some (fl.map (fun _ => false))]
  | some spws =>
    spws.map (fun s =>
      match flex_spw_id_array with
      | none => none
      | some fl => some (fl.map (fun x => x = s)))

/-- One iteration of the `_check_freq_spacing` loop body: updates the
`(spacing_error, chanwidth_error)` flags for one window mask. -/
def freqSpacingIter (freq_array : List ℚ) (freq_tols : ℚ × ℚ)
    (channel_width : Option (List ℚ)) (channel_width_tols : ℚ × ℚ)
    (maskOpt : Option (List Bool)) (flags : Bool × Bool) : Bool × Bool :=
  let doCheck : Bool :=
    match maskOpt with
    | none => true
    | some m => 0 < m.count true
  if doCheck then
    let freqs := match maskOpt with | none => freq_array | some m => maskedGet freq_array m
    let freq_spacing := npDiff freqs
    let freq_dir : ℚ := if freq_spacing.all (fun d => d < 0) then -1 else 1
    let s1 := flags.1 || !(_test_array_constant freq_tols freq_spacing)
    match channel_width with
    | none => (s1, flags.2)
    | some cw =>
      let cwsel := match maskOpt with | none => cw | some m => maskedGet cw m
      if !(_test_array_constant channel_width_tols cwsel) then (true, flags.2)
      else if !(npAllclose channel_width_tols.1 channel_width_tols.2 freq_spacing
          (npMean cwsel * freq_dir)) then (s1, true)
      else (s1, flags.2)
  else flags

/-- `_check_freq_spacing`: runs the contiguity check, accumulates the two
error flags over the per-window masks, then raises (in order: spacing, then
channel-width) when `raise_errors` is set, else returns the flags. -/
def _check_freq_spacing (freq_array : List ℚ) (freq_tols : ℚ × ℚ)
    (channel_width : Option (List ℚ)) (channel_width_tols : ℚ × ℚ)
    (spw_array flex_spw_id_array : Option (List ℤ)) (raise_errors : Bool) :
    FreqSpacingResult :=
  match _check_flex_spw_contiguous spw_array flex_spw_id_array with
  | .assertErr => .contigAssertErr
  | .valueErr => .contigValueErr
  | .ok =>
    let p := (spacingMasks spw_array flex_spw_id_array).foldl
      (fun flags m =>
        freqSpacingIter freq_array freq_tols channel_width channel_width_tols m flags)
      (false, false)
    if raise_errors && p.1 then .spacingRaise
    else if raise_errors && p.2 then .chanwidthRaise
    else .flags p.1 p.2

/-- C7: the spacing check reports two independent flags, and a raising run
raises exactly when a flag is set (spacing first); concretely, frequencies
`[100,101,102,103]` MHz with width 1 MHz yield `(False, False)`,
`[100,101,103,104]` MHz set the spacing flag, and `[100,101,102]` MHz with
declared width 2 MHz set the channel-width flag but not the spacing flag
(tolerances `(rtol, atol) = (0, 1e-3 MHz)`). -/
theorem check_freq_spacing_spec (freq_array : List ℚ) (freq_tols : ℚ × ℚ)
    (channel_width : Option (List ℚ)) (channel_width_tols : ℚ × ℚ)
    (spw_array flex_spw_id_array : Option (List ℤ)) (s c : Bool)
    (h : _check_freq_spacing freq_array freq_tols channel_width channel_width_tols
      spw_array flex_spw_id_array false = .flags s c) :
    (_check_freq_spacing freq_array freq_tols channel_width channel_width_tols
        spw_array flex_spw_id_array true =
      (if s then .spacingRaise else if c then .chanwidthRaise else .flags s c)) ∧
    _check_freq_spacing [100, 101, 102, 103] (0, 1/1000) (some [1, 1, 1, 1])
      (0, 1/1000) none none false = .flags false false ∧
    _check_freq_spacing [100, 101, 103, 104] (0, 1/1000) none
      (0, 1/1000) none none false = .flags true false ∧
    _check_freq_spacing [100, 101, 102] (0, 1/1000) (some [2, 2, 2])
      (0, 1/1000) none none false = .flags false true := by
  refine ⟨?_, ?_, ?_, ?_⟩
  · rw [_check_freq_spacing] at h ⊢
    rcases hc : _check_flex_spw_contiguous spw_array flex_spw_id_array
    · rw [hc] at h
      rcases h' : (spacingMasks spw_array flex_spw_id_array).foldl
          (fun flags m => freqSpacingIter freq_array freq_tols channel_width
            channel_width_tols m flags) (false, false) with ⟨ps, pc⟩
      simp only [h', Bool.false_and, Bool.false_eq_true, if_false,
        FreqSpacingResult.flags.injEq] at h
      obtain ⟨hs, hcc⟩ := h
      subst hs; subst hcc
      simp [h']
    · rw [hc] at h
      simp only [reduceCtorEq] at h
    · rw [hc] at h
      simp only [reduceCtorEq] at h
  · norm_num [_check_freq_spacing, _check_flex_spw_contiguous, spacingMasks,
      freqSpacingIter, _test_array_constant, npIsclose, npAllclose, npMean,
      npDiff, maskedGet, listMinQ, listMaxQ, abs_le, List.foldl]
  · norm_num [_check_freq_spacing, _check_flex_spw_contiguous, spacingMasks,
      freqSpacingIter, _test_array_constant, npIsclose, npAllclose, npMean,
      npDiff, maskedGet, listMinQ, listMaxQ, abs_le, List.foldl]
  · norm_num [_check_freq_spacing, _check_flex_spw_contiguous, spacingMasks,
      freqSpacingIter, _test_array_constant, npIsclose, npAllclose, npMean,
      npDiff, maskedGet, listMinQ, listMaxQ, abs_le, List.foldl]

/-- Witness for C7 at the first concrete example (no flags set, so the
raising run returns the same flags). -/
theorem check_freq_spacing_spec_witness :
    _check_freq_spacing [100, 101, 102, 103] (0, 1/1000) (some [1, 1, 1, 1])
      (0, 1/1000) none none true = .flags false false :=
  (check_freq_spacing_spec [100, 101, 102, 103] (0, 1/1000) (some [1, 1, 1, 1])
    (0, 1/1000) none none false false
    (by norm_num [_check_freq_spacing, _check_flex_spw_contiguous, spacingMasks,
      freqSpacingIter, _test_array_constant, npIsclose, npAllclose, npMean,
      npDiff, maskedGet, listMinQ, listMaxQ, abs_le, List.foldl])).1

/-! ## ANTENNA sub-table writer/reader
(`pyuvdata/ms_utils.py`: `write_ms_antenna` lines 518-601,
`read_ms_ant` lines 344-388)

Antenna positions are 3-vectors of floats, modelled as `ℚ × ℚ × ℚ`. -/

/-- Python `s.upper()` (`String.toUpper` does not reduce in the kernel). -/
def strToUpper (s : String) : String := String.mk (s.data.map Char.toUpper)

/-- Python `s.lower()`. -/
def strToLower (s : String) : String := String.mk (s.data.map Char.toLower)

abbrev Vec3 : Type := ℚ × ℚ × ℚ

def addV (a b : Vec3) : Vec3 := (a.1 + b.1, a.2.1 + b.2.1, a.2.2 + b.2.2)

def zeroV : Vec3 := (0, 0, 0)

/-- The columns of the on-disk ANTENNA table (parallel rows). -/
structure AntennaTable where
  name : List String
  station : List String
  position : List Vec3
  dish_diameter : List ℚ
  position_frame : String
deriving DecidableEq

/-- Python loop `for ai, num in enumerate(antenna_numbers): table[num] = vals[ai]`
scattering values into a pre-sized table. -/
def scatterByNumber {α : Type} (init : List α) (nums : List ℕ) (vals : List α) :
    List α :=
  (nums.zip vals).foldl (fun acc nv => acc.set nv.1 nv.2) init

/-- `len(np.unique(antenna_diameters)) == 1` (all diameters equal; `False`
on an empty list, whose unique has length 0). -/
def allSameDiam (l : List ℚ) : Bool :=
  match l with
  | [] => false
  | x :: xs => xs.all (fun y => y = x)

/-- `write_ms_antenna`: pads the table to `np.max(antenna_numbers) + 1` rows,
scatters names (into both NAME and STATION), absolute positions
(`antenna_positions + telescope_location`) and diameters by antenna number
(a single shared diameter fills every row when all diameters are equal),
and stores the MEASINFO frame keyword uppercased with "ITRS" remapped to
"ITRF". -/
def write_ms_antenna (antenna_numbers : List ℕ) (antenna_names : List String)
    (antenna_positions : List Vec3) (antenna_diameters : List ℚ)
    (telescope_location : Vec3) (telescope_frame : String) : AntennaTable :=
  let nants_table := antenna_numbers.foldl max 0 + 1
  let ant_names_table :=
    scatterByNumber (List.replicate nants_table "") antenna_numbers antenna_names
  let ant_pos_absolute := antenna_positions.map (fun p => addV p telescope_location)
  let ant_pos_table :=
    scatterByNumber (List.replicate nants_table zeroV) antenna_numbers ant_pos_absolute
  let ant_diam_table :=
    if allSameDiam antenna_diameters then
      List.replicate nants_table (antenna_diameters.headD 0)
    else
      scatterByNumber (List.replicate nants_table 0) antenna_numbers antenna_diameters
  let frame := strToUpper telescope_frame
  let frame := if frame = "ITRS" then "ITRF" else frame
  ⟨ant_names_table, ant_names_table, ant_pos_table, ant_diam_table, frame⟩

/-- The normalized record returned by `read_ms_ant`. -/
structure AntRecord where
  antenna_positions : List Vec3
  antenna_numbers : List ℕ
  telescope_frame : String
  antenna_names : List String
  station_names : List String
  antenna_diameters : List ℚ
deriving DecidableEq

/-- `read_ms_ant` (with `check_frame=True`): rejects frames other than
itrs/mcmf/itrf (ValueError, modelled as `none`), remaps "itrf" to "itrs",
and drops every row whose position is all-zero
(`good_mask = np.any(antenna_positions, axis=1)`), returning the surviving
row indices as the antenna numbers. -/
def read_ms_ant (t : AntennaTable) : Option AntRecord :=
  let telescope_frame := strToLower t.position_frame
  if telescope_frame = "itrs" ∨ telescope_frame = "mcmf" ∨ telescope_frame = "itrf"
  then
    let telescope_frame := if telescope_frame = "itrf" then "itrs" else telescope_frame
    let n_ants_table := t.position.length
    let good : ℕ → Bool := fun i => t.position.getD i zeroV ≠ zeroV
    let good_rows := (List.range n_ants_table).filter good
    some
      { antenna_positions := good_rows.map (fun i => t.position.getD i zeroV)
        antenna_numbers := good_rows
        telescope_frame := telescope_frame
        antenna_names := good_rows.map (fun i => t.name.getD i "")
        station_names := good_rows.map (fun i => t.station.getD i "")
        antenna_diameters := good_rows.map (fun i => t.dish_diameter.getD i 0) }
  else none

/-- C5: writing antennas numbered {0, 2, 5} and reading the table back
returns exactly the numbers {0, 2, 5} with the matching names, positions
(as stored: relative positions plus the telescope location; callers recover
the original relative positions by subtracting the telescope location) and
diameters; the padding rows {1, 3, 4} are dropped by the all-zero-position
filter. Hypotheses: no real antenna sits exactly at the frame origin
(otherwise its padding-indistinguishable row would be dropped too). -/
theorem antenna_write_read_roundtrip (p0 p2 p5 : Vec3) (n0 n2 n5 : String)
    (d0 d2 d5 : ℚ) (tloc : Vec3)
    (h0 : addV p0 tloc ≠ zeroV) (h2 : addV p2 tloc ≠ zeroV)
    (h5 : addV p5 tloc ≠ zeroV) :
    read_ms_ant
        (write_ms_antenna [0, 2, 5] [n0, n2, n5] [p0, p2, p5] [d0, d2, d5]
          tloc "itrs") =
      some
        { antenna_positions := [addV p0 tloc, addV p2 tloc, addV p5 tloc]
          antenna_numbers := [0, 2, 5]
          telescope_frame := "itrs"
          antenna_names := [n0, n2, n5]
          station_names := [n0, n2, n5]
          antenna_diameters := [d0, d2, d5] } := by
  by_cases hd : allSameDiam [d0, d2, d5] = true
  · have hd2 : d2 = d0 := by
      have := hd
      simp only [allSameDiam, List.all_cons, List.all_nil, Bool.and_true,
        Bool.and_eq_true, decide_eq_true_eq] at this
      exact this.1
    have hd5 : d5 = d0 := by
      have := hd
      simp only [allSameDiam, List.all_cons, List.all_nil, Bool.and_true,
        Bool.and_eq_true, decide_eq_true_eq] at this
      exact this.2
    subst hd2; subst hd5
    simp [write_ms_antenna, read_ms_ant, scatterByNumber, hd,
      List.range_succ, h0, h2, h5, List.getD,
      (by decide : strToUpper "itrs" = "ITRS"),
      (by decide : strToLower "ITRF" = "itrf")]
  · simp [write_ms_antenna, read_ms_ant, scatterByNumber, hd,
      List.range_succ, h0, h2, h5, List.getD,
      (by decide : strToUpper "itrs" = "ITRS"),
      (by decide : strToLower "ITRF" = "itrf")]

/-- Witness for C5 at concrete values. -/
theorem antenna_write_read_roundtrip_witness :
    read_ms_ant
        (write_ms_antenna [0, 2, 5] ["a0", "a2", "a5"]
          [(1, 0, 0), (0, 2, 0), (0, 0, 3)] [4, 5, 6] zeroV "itrs") =
      some
        { antenna_positions := [addV (1, 0, 0) zeroV, addV (0, 2, 0) zeroV,
            addV (0, 0, 3) zeroV]
          antenna_numbers := [0, 2, 5]
          telescope_frame := "itrs"
          antenna_names := ["a0", "a2", "a5"]
          station_names := ["a0", "a2", "a5"]
          antenna_diameters := [4, 5, 6] } :=
  antenna_write_read_roundtrip (1, 0, 0) (0, 2, 0) (0, 0, 3) "a0" "a2" "a5"
    4 5 6 zeroV
    (by simp [addV, zeroV, Prod.mk_eq_zero])
    (by simp [addV, zeroV, Prod.mk_eq_zero])
    (by simp [addV, zeroV, Prod.mk_eq_zero])

/-! ## HISTORY table reader (`pyuvdata/ms_utils.py`, `read_ms_hist`,
lines 225-341)

The on-disk HISTORY table is modelled as its column contents; columns are
total functions of the row index together with the row count (casacore
guarantees rectangular columns). The two optional columns (`APP_PARAMS`,
`CLI_COMMAND`) are `none` when `getcol` raises `RuntimeError`. Numeric
cells are rendered with `toString` where Python uses `str(...)`; no claim
depends on the rendering. -/

structure HistTable where
  nrows : ℕ
  app_params : Option (ℕ → String)
  cli_command : Option (ℕ → String)
  application : ℕ → String
  message : ℕ → String
  obj_id : ℕ → ℤ
  obs_id : ℕ → ℤ
  origin : ℕ → String
  priority : ℕ → String
  times : ℕ → ℚ

/-- The `';'.join(str(col[row_idx]) for col in cols) + "\n"` line for one
table row (optional columns first, matching the `cols.insert(0, ...)`
order). -/
def histRowLine (t : HistTable) (i : ℕ) : String :=
  String.intercalate ";"
    ((match t.app_params with | none => [] | some f => [f i]) ++
     (match t.cli_command with | none => [] | some f => [f i]) ++
     [t.application i, t.message i, toString (t.obj_id i), toString (t.obs_id i),
      t.origin i, t.priority i, toString (t.times i)]) ++ "\n"

/-- The history string assembled from the HISTORY table rows
(`read_ms_hist` before the version check): header sentinel and column
header, non-pyuvdata rows joined with `;`, end sentinel, and the
pyuvdata-originated messages prepended/appended according to their position
relative to the first non-pyuvdata row. -/
def read_ms_hist_table_str (t : HistTable) : String :=
  if t.nrows = 0 then ""
  else
    let header := "Begin measurement set history\n"
      ++ (if t.app_params.isSome then "APP_PARAMS;" else "")
      ++ (if t.cli_command.isSome then "CLI_COMMAND;" else "")
      ++ "APPLICATION;MESSAGE;OBJECT_ID;OBSERVATION_ID;ORIGIN;PRIORITY;TIME\n"
    let isPy : ℕ → Bool := fun i => strContainsSub (t.application i) "pyuvdata"
    let body := ((List.range t.nrows).filter (fun i => !(isPy i))).foldl
      (fun acc i => acc ++ histRowLine t i) ""
    let s := header ++ body ++ "End measurement set history.\n"
    let ms_line_idx : List ℤ :=
      ((List.range t.nrows).filter (fun i => !(isPy i))).map (fun i => (i : ℤ))
    let ms_line_idx := if ms_line_idx = [] then [-1] else ms_line_idx
    let msMin : ℤ := ms_line_idx.foldl min (ms_line_idx.headD 0)
    ((List.range t.nrows).filter isPy).foldl
      (fun acc i =>
        if Int.ofNat i < msMin then t.message i ++ "\n" ++ acc
        else acc ++ t.message i ++ "\n") s

/-- Modelled from the spec: `uvutils._check_history_version` lives in
`pyuvdata/utils/__init__.py`, which is not part of the sources; per the
spec it checks whether the assembled history "already record[s] that
version", modelled as substring containment of the version string. -/
def _check_history_version (history version_str : String) : Bool :=
  strContainsSub history version_str

/-- `read_ms_hist`: assemble the table history, then append
`pyuvdata_version_str` unless the version check already passes. -/
def read_ms_hist (t : HistTable) (pyuvdata_version_str : String) : String :=
  let history_str := read_ms_hist_table_str t
  if !(_check_history_version history_str pyuvdata_version_str) then
    history_str ++ pyuvdata_version_str
  else history_str

/-- C10: for every HISTORY table content and version string, the string
returned by the history reader satisfies the pyuvdata version check: if the
assembled history does not already record the version it is appended, so
the caller always receives a history containing the software version. -/
theorem read_ms_hist_contains_version (t : HistTable) (v : String) :
    _check_history_version (read_ms_hist t v) v = true := by
  rw [read_ms_hist]
  rcases hch : _check_history_version (read_ms_hist_table_str t) v
  · simp only [hch, Bool.not_false, if_pos]
    rw [_check_history_version]
    exact strContainsSub_append _ v
  · simp only [hch, Bool.not_true, Bool.false_eq_true, if_false]

/-! ## HISTORY table writer (`pyuvdata/ms_utils.py`, `write_ms_history`,
lines 712-849)

The writer parses the incoming history string back into rows. The history
is modelled by its list of lines (`history.splitlines()`); `Time.now()`'s
fresh timestamp (`Time.now().mjd * 3600.0 * 24.0`) is the parameter `now`.
The nine parallel column lists of the Python code are kept zipped as a
single list of rows; `none` models the `ValueError` that `int(...)` or
`np.float64(...)` would raise on an unparsable field. -/

structure HistRow where
  app_params : String
  cli_command : String
  application : String
  message : String
  obj_id : ℤ
  obs_id : ℤ
  origin : String
  priority : String
  time : ℚ
deriving DecidableEq

/-- The header sentinel the writer searches for. -/
def msHistHeaderMarker : String := "APP_PARAMS;CLI_COMMAND;APPLICATION;MESSAGE"

/-- A fallback row: attributed to pyuvdata with object id 0, observation id
-1, INFO priority and the fresh timestamp. -/
def pyuvdataHistRow (now : ℚ) (line : String) : HistRow :=
  ⟨"", "", "pyuvdata", line, 0, -1, "pyuvdata", "INFO", now⟩

structure HistParseState where
  ms_history : Bool
  header_line : Option ℕ
  end_line : Option ℕ
  pre_lines : List String
  post_lines : List String
  rows : List HistRow

/-- One iteration of the `for line_no, line in enumerate(history.splitlines())`
parse loop of `write_ms_history`. On a row with a field count other than 9
it resets the pre/post line lists and clears `ms_history` — but leaves the
already-parsed rows in place, exactly as the Python code does. -/
def writeMsHistoryStep (st : HistParseState) (ln : ℕ × String) :
    Option HistParseState :=
  let (line_no, line) := ln
  if !st.ms_history then some st
  else if strContainsSub line msHistHeaderMarker then
    some { st with header_line := some line_no }
  else if strContainsSub line "End measurement set history" then
    some { st with end_line := some line_no }
  else if st.header_line.isSome && st.end_line.isNone then
    let parts := splitOnChar ';' line
    if parts.length ≠ 9 then
      some { st with pre_lines := [], post_lines := [], ms_history := false }
    else
      match parseInt (parts.getD 4 ""), parseInt (parts.getD 5 ""),
          parseFloat (parts.getD 8 "") with
      | some oid, some obsid, some tval =>
        some { st with rows := st.rows ++
          [⟨parts.getD 0 "", parts.getD 1 "", parts.getD 2 "", parts.getD 3 "",
            oid, obsid, parts.getD 6 "", parts.getD 7 "", tval⟩] }
      | _, _, _ => none
  else if st.header_line.isNone then
    if strContainsSub line "Begin measurement set history" then some st
    else some { st with pre_lines := st.pre_lines ++ [line] }
  else
    some { st with post_lines := st.post_lines ++ [line] }

/-- The rows `write_ms_history` writes into the HISTORY table, in order.
When the structured block parses fully, pre-block lines are inserted at the
front and post-block lines appended, as pyuvdata rows; when a malformed row
was hit (or no sentinel is present at all) every line of the history is
appended as a pyuvdata row — after any rows already parsed. -/
def write_ms_history_rows (now : ℚ) (history_lines : List String) :
    Option (List HistRow) :=
  let ms_history := history_lines.any (fun l => strContainsSub l msHistHeaderMarker)
  if ms_history then
    match history_lines.enum.foldlM writeMsHistoryStep
        ⟨true, none, none, [], [], []⟩ with
    | none => none
    | some st =>
      if st.ms_history then
        some ((st.pre_lines.map (pyuvdataHistRow now)) ++ st.rows ++
          (st.post_lines.map (pyuvdataHistRow now)))
      else
        some (st.rows ++ history_lines.map (pyuvdataHistRow now))
  else
    some (history_lines.map (pyuvdataHistRow now))

/-- A history row without its timestamp (timestamps contain rationals,
whose literals do not reduce under `decide`; the timestamp plays no role in
the attribution facts below). -/
structure HistRowNoTime where
  app_params : String
  cli_command : String
  application : String
  message : String
  obj_id : ℤ
  obs_id : ℤ
  origin : String
  priority : String
deriving DecidableEq

def HistRow.dropTime (r : HistRow) : HistRowNoTime :=
  ⟨r.app_params, r.cli_command, r.application, r.message, r.obj_id, r.obs_id,
   r.origin, r.priority⟩

/-- The malformed-history counterexample input: a structured block whose
third body line has 1 field instead of 9. -/
def badHistLines : List String :=
  ["Begin measurement set history",
   "APP_PARAMS;CLI_COMMAND;APPLICATION;MESSAGE;OBJECT_ID;OBSERVATION_ID;ORIGIN;PRIORITY;TIME",
   "a;b;c;d;1;2;e;f;3",
   "bad line",
   "End measurement set history."]

/-- C4 (code bug): handing the writer a history whose structured block
contains a malformed line makes it fall back to one-row-per-line encoding
of the entire history, but the row parsed from the structured block
*before* the malformed line survives in front of the fallback rows: the
first emitted row keeps application "c" and origin "e" (and its original
timestamp), so not every emitted row is attributed to pyuvdata, and the
surviving row duplicates its own line among the fallback rows. -/
theorem write_ms_history_malformed_keeps_parsed_rows :
    ((write_ms_history_rows 0 badHistLines).getD []).map HistRow.dropTime =
      ⟨"a", "b", "c", "d", 1, 2, "e", "f"⟩ ::
        badHistLines.map (fun l => ⟨"", "", "pyuvdata", l, 0, -1, "pyuvdata", "INFO"⟩) ∧
    ¬ (((write_ms_history_rows 0 badHistLines).getD []).all
        (fun r => r.application = "pyuvdata")) := by
  constructor
  · decide
  · decide

/-! ## Frequency selection-index computation
(`pyuvdata/utils/frequency.py`, `_select_freq_helper`, lines 320-522)

Index arrays are NumPy int64 arrays, modelled as `List ℤ` (user-supplied
channel numbers may be negative; NumPy fancy indexing wraps negative
indices and raises `IndexError` out of range, modelled with `Option`).
`tools._get_iterable` is the identity on the list inputs modelled here, and
`jstr2num`/`polstr2num` are external collaborators (spec §1), taken as
function parameters. Warnings do not affect the returned indices and are
not modelled. -/

def exceptOfOption {ε α : Type} (o : Option α) (e : ε) : Except ε α :=
  match o with
  | some x => .ok x
  | none => .error e

/-- NumPy scalar indexing `l[i]` with negative wrap-around;
`none` is `IndexError`. -/
def npGetAt {α : Type} (l : List α) (i : ℤ) : Option α :=
  let j := if i < 0 then i + l.length else i
  if 0 ≤ j then l.get? j.toNat else none

/-- NumPy fancy indexing `l[idx]`. -/
def npGetList {α : Type} (l : List α) (idx : List ℤ) : Option (List α) :=
  idx.mapM (npGetAt l)

/-- `np.nonzero(np.isin(arr, vals, invert=invert))[0]`: the ascending
positions of `arr` whose value is (not, when inverted) in `vals`. -/
def npNonzeroIsin (arr vals : List ℤ) (invert : Bool) : List ℤ :=
  ((List.range arr.length).filter
    (fun i => (vals.contains (arr.getD i 0)) != invert)).map (fun i => (i : ℤ))

/-- `np.intersect1d`: sorted unique common values. -/
def npIntersect1d (a b : List ℤ) : List ℤ :=
  sortedUniqueZ (a.filter (fun x => b.contains x))

/-- A polarization/Jones selection item: a string (resolved through
`jstr2num`/`polstr2num`) or a number. -/
inductive PolItem where
  | str : String → PolItem
  | num : ℤ → PolItem
deriving DecidableEq

structure SelArgs where
  frequencies : Option (List ℚ)
  freq_chans : Option (List ℤ)
  obj_freq_array : Option (List ℚ)
  freq_tols : ℚ × ℚ
  obj_channel_width : Option (List ℚ)
  channel_width_tols : Option (ℚ × ℚ)
  spws : Option (List ℤ)
  obj_spw_array : Option (List ℤ)
  obj_spw_id_array : Option (List ℤ)
  polarizations : Option (List PolItem)
  obj_flex_spw_pol_array : Option (List ℤ)
  jones : Option (List PolItem)
  obj_flex_jones_array : Option (List ℤ)
  obj_x_orientation : Option String
  warn_freq_spacing : Bool
  invert : Bool

inductive SelErr where
  | freqNotPresent : SelErr
  | noDataFreq : SelErr
  | spwNotPresent : SelErr
  | polNotPresent : SelErr
  | noDataPol : SelErr
  | noDataSpw : SelErr
  | typeErr : SelErr
  | contigAssert : SelErr
  | contigValue : SelErr
deriving DecidableEq

structure SelState where
  freq_inds : Option (List ℤ)
  spw_inds : Option (List ℤ)
  selections : List String
deriving DecidableEq

structure SelOut where
  freq_inds : Option (List ℤ)
  spw_inds : Option (List ℤ)
  selections : List String
deriving DecidableEq

/-- The `frequencies` loop (lines 378-398): append the matching channel
positions for each requested frequency to `freq_chans`; a frequency with no
`np.isclose` match raises unless `invert` is set. -/
def selFreqChansStage (a : SelArgs) : Except SelErr (Option (List ℤ)) :=
  match a.frequencies with
  | none => .ok a.freq_chans
  | some freqs =>
    match a.obj_freq_array with
    | none => .error .typeErr
    | some ofa =>
      (freqs.foldlM
        (fun acc freq =>
          let close := (List.range ofa.length).filter
            (fun i => npIsclose a.freq_tols.1 a.freq_tols.2 (ofa.getD i 0) freq)
          if close ≠ [] then Except.ok (acc ++ close.map (fun i => (i : ℤ)))
          else if !a.invert then Except.error SelErr.freqNotPresent
          else Except.ok acc)
        (a.freq_chans.getD [])).map some

/-- The `freq_chans` block (lines 400-409): dedupe into `freq_inds`, derive
`spw_inds` from the selected channels' window ids when both window arrays
are available, and reject an inverted selection covering nothing. -/
def selFreqIndsStage (a : SelArgs) (fc : Option (List ℤ)) :
    Except SelErr SelState :=
  match fc with
  | none => .ok ⟨none, none, []⟩
  | some fc =>
    let fi := sortedUniqueZ fc
    let spwStep : Except SelErr (Option (List ℤ)) :=
      match a.obj_spw_array, a.obj_spw_id_array with
      | some osa, some osia =>
        match npGetList osia fi with
        | none => .error .typeErr
        | some vals => .ok (some (npNonzeroIsin osa vals a.invert))
      | _, _ => .ok none
    match spwStep with
    | .error e => .error e
    | .ok spw_inds =>
      if a.invert ∧ fi.length = fc.length then .error .noDataFreq
      else .ok ⟨some fi, spw_inds, ["frequencies"]⟩

/-- The `spws` block (lines 411-424): reject requested windows absent from
the object (unless inverted) and intersect the window-index subset. -/
def selSpwsStage (a : SelArgs) (st : SelState) : Except SelErr SelState :=
  match a.spws with
  | none => .ok st
  | some spws =>
    match a.obj_spw_array with
    | none =>
      if spws ≠ [] ∧ !a.invert then .error .spwNotPresent else .error .typeErr
    | some osa =>
      if (spws.any (fun s => !(osa.contains s))) ∧ !a.invert then
        .error .spwNotPresent
      else
        let base := npNonzeroIsin osa spws a.invert
        .ok ⟨st.freq_inds,
          some (match st.spw_inds with
                | none => base
                | some si => npIntersect1d base si),
          st.selections ++ ["spectral windows"]⟩

/-- The jones/polarization block (lines 426-469): resolve the requested
terms (strings through the external converters), reject missing terms
(unless inverted), intersect the window-index subset and reject an empty
result. The evenness warning has no effect on the returned indices. -/
def selPolStage (jstr2num polstr2num : String → Option String → ℤ)
    (a : SelArgs) (st : SelState) : Except SelErr SelState :=
  let has_jones := a.jones.isSome && a.obj_flex_jones_array.isSome
  let has_pol := a.polarizations.isSome && a.obj_flex_spw_pol_array.isSome
  if has_jones || has_pol then
    let obj_arr := if has_jones then a.obj_flex_jones_array.getD []
      else a.obj_flex_spw_pol_array.getD []
    let sel_arr := if has_jones then a.jones.getD [] else a.polarizations.getD []
    let str_eval := if has_jones then jstr2num else polstr2num
    match sel_arr.foldlM
        (fun acc item =>
          let item_id := match item with
            | PolItem.str s => str_eval s a.obj_x_orientation
            | PolItem.num i => i
          if !(obj_arr.contains item_id) && !a.invert then
            Except.error SelErr.polNotPresent
          else Except.ok (acc ++ [item_id]))
        ([] : List ℤ) with
    | .error e => .error e
    | .ok flx_nums =>
      let flx_inds := npNonzeroIsin obj_arr flx_nums a.invert
      let spw_inds := match st.spw_inds with
        | none => flx_inds
        | some si => npIntersect1d flx_inds si
      if spw_inds.length = 0 then .error .noDataPol
      else .ok ⟨st.freq_inds, some spw_inds,
        st.selections ++
          [if has_jones then "jones polarization terms" else "polarizations"]⟩
  else .ok st

/-- The `spw_inds` block (lines 473-486): map the selected window positions
to window ids (`sel_spw_array`), reject an empty selection, restrict
`freq_inds` to channels in the selected windows, and normalize `spw_inds`
with `sorted(set(...))`. Also returns `sel_spw_array` for the final
spacing check. -/
def selSpwIndsStage (a : SelArgs) (st : SelState) :
    Except SelErr (SelState × Option (List ℤ)) :=
  match st.spw_inds with
  | none => .ok (st, none)
  | some si =>
    match a.obj_spw_array with
    | none => .error .typeErr
    | some osa =>
      match npGetList osa si with
      | none => .error .typeErr
      | some ssa =>
        if si.length = 0 then .error .noDataSpw
        else
          let freq_inds := match a.obj_spw_id_array with
            | none => st.freq_inds
            | some osia =>
              let base2 := npNonzeroIsin osia ssa false
              match st.freq_inds with
              | none => some base2
              | some fi => some (npIntersect1d fi base2)
          .ok (⟨freq_inds, some (sortedUniqueZ si), st.selections⟩, some ssa)

/-- The spacing gate inside the final `freq_inds` block (lines 491-518):
build the selected sub-arrays and re-run `_check_freq_spacing` with
`raise_errors=False`; only the contiguity failures inside that check can
escape as exceptions (the two flags merely drive warnings). -/
def selFreqSpacingGate (a : SelArgs) (fi : List ℤ)
    (sel_spw_array : Option (List ℤ)) : Except SelErr Unit :=
  let selCW : Except SelErr (Option (List ℚ)) :=
    match a.obj_channel_width with
    | none => .ok none
    | some cw => (exceptOfOption (npGetList cw fi) SelErr.typeErr).map some
  match selCW with
  | .error e => .error e
  | .ok sel_chan_width =>
    let selSid : Except SelErr (Option (List ℤ)) :=
      match a.obj_spw_id_array with
      | none => .ok none
      | some osia => (exceptOfOption (npGetList osia fi) SelErr.typeErr).map some
    match selSid with
    | .error e => .error e
    | .ok sel_spw_id_array =>
      match a.obj_freq_array with
      | none => .error .typeErr
      | some ofa =>
        match npGetList ofa fi with
        | none => .error .typeErr
        | some sel_freq_array =>
          match _check_freq_spacing sel_freq_array a.freq_tols sel_chan_width
              (a.channel_width_tols.getD (0, 0)) sel_spw_array sel_spw_id_array
              false with
          | .contigAssertErr => .error .contigAssert
          | .contigValueErr => .error .contigValue
          | _ => .ok ()

/-- The final `freq_inds` block (lines 488-520): reject an empty channel
selection, run the spacing gate, and normalize `freq_inds` with
`sorted(set(...))`. -/
def selFinalFreqStage (a : SelArgs) (st : SelState)
    (sel_spw_array : Option (List ℤ)) : Except SelErr SelOut :=
  match st.freq_inds with
  | none => .ok ⟨none, st.spw_inds, st.selections⟩
  | some fi =>
    if fi.length = 0 then .error .noDataFreq
    else
      match selFreqSpacingGate a fi sel_spw_array with
      | .error e => .error e
      | .ok _ => .ok ⟨some (sortedUniqueZ fi), st.spw_inds, st.selections⟩

/-- `_select_freq_helper`: the staged composition of the blocks above. -/
def _select_freq_helper (jstr2num polstr2num : String → Option String → ℤ)
    (a : SelArgs) : Except SelErr SelOut :=
  match selFreqChansStage a with
  | .error e => .error e
  | .ok fc =>
    match selFreqIndsStage a fc with
    | .error e => .error e
    | .ok st =>
      match selSpwsStage a st with
      | .error e => .error e
      | .ok st =>
        match selPolStage jstr2num polstr2num a st with
        | .error e => .error e
        | .ok st =>
          match selSpwIndsStage a st with
          | .error e => .error e
          | .ok (st, ssa) => selFinalFreqStage a st ssa

theorem selFinalFreqStage_sorted (a : SelArgs) (st : SelState)
    (ssa : Option (List ℤ)) (out : SelOut) (l : List ℤ)
    (h : selFinalFreqStage a st ssa = .ok out) (hf : out.freq_inds = some l) :
    List.Sorted (· < ·) l := by
  rw [selFinalFreqStage] at h
  split at h
  · injection h with h
    rw [← h] at hf
    exact absurd hf (by simp)
  · split at h
    · exact absurd h (by simp)
    · split at h
      · exact absurd h (by simp)
      · injection h with h
        rw [← h] at hf
        simp only [Option.some.injEq] at hf
        rw [← hf]
        exact sortedUniqueZ_sorted _

/-- C9: whenever the frequency selection-index computation returns a
non-`None` channel-index set, that set is strictly ascending and free of
duplicates, for arbitrary requested frequencies, channel indices,
spectral-window ids, polarization/Jones selections and converter
functions. -/
theorem select_freq_helper_freq_inds_sorted
    (jstr2num polstr2num : String → Option String → ℤ) (a : SelArgs)
    (out : SelOut) (l : List ℤ)
    (h : _select_freq_helper jstr2num polstr2num a = .ok out)
    (hf : out.freq_inds = some l) :
    List.Sorted (· < ·) l ∧ l.Nodup := by
  rw [_select_freq_helper] at h
  split at h
  · exact absurd h (by simp)
  · split at h
    · exact absurd h (by simp)
    · split at h
      · exact absurd h (by simp)
      · split at h
        · exact absurd h (by simp)
        · split at h
          · exact absurd h (by simp)
          · have hs := selFinalFreqStage_sorted a _ _ out l h hf
            exact ⟨hs, List.Pairwise.imp (fun hlt => ne_of_lt hlt) hs⟩

instance {epsilon alpha : Type} [DecidableEq epsilon] [DecidableEq alpha] :
    DecidableEq (Except epsilon alpha) := fun a b =>
  match a, b with
  | .error e, .error f =>
    if h : e = f then isTrue (by rw [h]) else isFalse (by simp [h])
  | .ok x, .ok y =>
    if h : x = y then isTrue (by rw [h]) else isFalse (by simp [h])
  | .error _, .ok _ => isFalse (by simp)
  | .ok _, .error _ => isFalse (by simp)

/-- Witness for C9: selecting channels `[5, 2]` from a 10-channel object
returns exactly the ascending duplicate-free index set `[2, 5]`. -/
theorem select_freq_helper_freq_inds_sorted_witness :
    _select_freq_helper (fun _ _ => 0) (fun _ _ => 0)
        ⟨none, some [5, 2], some (List.replicate 10 0), (0, 0), none, none,
         none, none, none, none, none, none, none, none, true, false⟩ =
      .ok ⟨some [2, 5], none, ["frequencies"]⟩ ∧
    List.Sorted (· < ·) ([2, 5] : List ℤ) ∧ ([2, 5] : List ℤ).Nodup := by
  refine ⟨by decide, ?_⟩
  exact select_freq_helper_freq_inds_sorted (fun _ _ => 0) (fun _ _ => 0)
    ⟨none, some [5, 2], some (List.replicate 10 0), (0, 0), none, none,
     none, none, none, none, none, none, none, none, true, false⟩
    ⟨some [2, 5], none, ["frequencies"]⟩ [2, 5] (by decide) rfl

/-! ## Frequency sort-order computation
(`pyuvdata/utils/frequency.py`, `_sort_freq_helper`, lines 140-317)

`spw_order` and `channel_order` each accept a string policy or an index
array; `select_spw` accepts an int or a list of ints. NumPy's default
`argsort` order on ties is unspecified; we model the stable order. The
function's `UserWarning`s are tracked as values; the raised `ValueError`s
as `Except` errors. The final ascending check (lines 313-317) is split off
as a wrapper around `sortIndexCore`, the computation of the candidate index
array (everything before line 313). -/

inductive OrderArg where
  | str : String → OrderArg
  | arr : List ℕ → OrderArg
deriving DecidableEq

inductive SelectSpwArg where
  | one : ℤ → SelectSpwArg
  | many : List ℤ → SelectSpwArg
deriving DecidableEq

inductive SortWarning where
  | noSortCriteria : SortWarning
  | selectSpwIgnoredForChanArr : SortWarning
  | spwOrderIgnoredForChanArr : SortWarning
  | spwOrderIgnoredForSelect : SortWarning
  | selectSpwWithoutChannelOrder : SortWarning
deriving DecidableEq

inductive SortErr where
  | badChannelOrderArr : SortErr
  | badSpwOrderArr : SortErr
  | badSpwOrderStr : SortErr
  | badChannelOrderStr : SortErr
deriving DecidableEq

structure SortArgs where
  Nfreqs : ℕ
  freq_array : List ℚ
  Nspws : ℕ
  spw_array : List ℤ
  flex_spw_id_array : List ℤ
  spw_order : Option OrderArg
  channel_order : Option OrderArg
  select_spw : Option SelectSpwArg
deriving DecidableEq

/-- Tie-stable comparison of positions by their rational keys
(`np.argsort` over a float array). -/
def argsortLe (l : List ℚ) (i j : ℕ) : Bool :=
  if l.getD i 0 < l.getD j 0 then true
  else if l.getD j 0 < l.getD i 0 then false
  else i ≤ j

def npArgsortQ (l : List ℚ) : List ℕ :=
  insertionSort (argsortLe l) (List.range l.length)

def argsortLeZ (l : List ℤ) (i j : ℕ) : Bool :=
  if l.getD i 0 < l.getD j 0 then true
  else if l.getD j 0 < l.getD i 0 then false
  else i ≤ j

def npArgsortZ (l : List ℤ) : List ℕ :=
  insertionSort (argsortLeZ l) (List.range l.length)

/-- `np.sort` on an index array. -/
def npSortN (l : List ℕ) : List ℕ := insertionSort (fun a b => a ≤ b) l

/-- `np.median` of a float array: middle of the sorted values, or the mean
of the two middle values for an even length (0 on empty, which the code
never hits on the sorting paths). -/
def npMedianQ (l : List ℚ) : ℚ :=
  let s := insertionSort (fun a b : ℚ => decide (a ≤ b)) l
  if l.length = 0 then 0
  else if l.length % 2 = 1 then s.getD (l.length / 2) 0
  else (s.getD (l.length / 2 - 1) 0 + s.getD (l.length / 2) 0) / 2

/-- `np.all(index_array[1:] > index_array[:-1])`: strictly ascending. -/
def npStrictAscN : List ℕ → Bool
  | [] => true
  | [_] => true
  | x :: y :: rest => decide (x < y) && npStrictAscN (y :: rest)

/-- The spectral-window permutation computed from `spw_order`
(lines 258-289): an explicit index array is validated; a string policy
argsorts by window number or by per-window median frequency, flipped for a
leading '-'; with at most one window the identity is used. -/
def spwOrderPerm (a : SortArgs) (so : OrderArg) : Except SortErr (List ℕ) :=
  match so with
  | .arr p =>
    if p.length = a.Nspws ∧ npSortN p = List.range a.Nspws then .ok p
    else .error .badSpwOrderArr
  | .str s =>
    if ¬ (s = "number" ∨ s = "freq" ∨ s = "-number" ∨ s = "-freq") then
      .error .badSpwOrderStr
    else if 1 < a.Nspws then
      let flip_spws := s.data.headD ' ' = '-'
      let perm :=
        if s = "number" ∨ s = "-number" then npArgsortZ a.spw_array
        else npArgsortQ (a.spw_array.map (fun idx =>
          npMedianQ (maskedGet a.freq_array
            (a.flex_spw_id_array.map (fun x => decide (x = idx))))))
      .ok (if flip_spws then perm.reverse else perm)
    else .ok (List.range a.Nspws)

/-- The per-window channel sort (lines 297-312): for each window flagged in
`sort_spw`, reorder that window's slots of `index_array` by ascending
frequency, reversed for `"-freq"`. -/
def sortChannelsStep (channel_order_str : String) (temp_freqs : List ℚ)
    (temp_spws : List ℤ) (sort_spw : ℤ → Bool) (ia : List ℕ) (idx : ℤ) :
    List ℕ :=
  if sort_spw idx then
    let select_mask := temp_spws.map (fun x => decide (x = idx))
    let subsort := maskedGet ia select_mask
    let subfreqs := maskedGet temp_freqs select_mask
    let subsort := (npArgsortQ subfreqs).map (fun k => subsort.getD k 0)
    let subsort :=
      if channel_order_str.data.headD ' ' = '-' then subsort.reverse
      else subsort
    maskedSet ia select_mask subsort
  else ia

def sortChannelsApply (a : SortArgs) (channel_order_str : String)
    (index_array : List ℕ) (temp_freqs : List ℚ) (temp_spws : List ℤ)
    (sort_spw : ℤ → Bool) : Except SortErr (List ℕ) :=
  if ¬ (channel_order_str = "freq" ∨ channel_order_str = "-freq") then
    .error .badChannelOrderStr
  else
    .ok (a.spw_array.foldl
      (sortChannelsStep channel_order_str temp_freqs temp_spws sort_spw)
      index_array)

/-- The branches of `_sort_freq_helper` in which `channel_order` is not an
index array (`coStr` is its optional string form). -/
def sortIndexCoreNoArr (a : SortArgs) (coStr : Option String) :
    Except SortErr (Option (List ℕ) × List SortWarning) :=
  let index_array := List.range a.Nfreqs
  match a.select_spw with
  | some sel =>
    let w := if a.spw_order.isSome then [SortWarning.spwOrderIgnoredForSelect]
      else []
    match coStr with
    | none => .ok (none, w ++ [.selectSpwWithoutChannelOrder])
    | some s =>
      let sort_spw : ℤ → Bool := fun idx =>
        match sel with
        | .many l => l.contains idx
        | .one i => decide (idx = i)
      (sortChannelsApply a s index_array a.freq_array a.flex_spw_id_array
        sort_spw).map (fun ia => (some ia, w))
  | none =>
    match a.spw_order with
    | some so =>
      match spwOrderPerm a so with
      | .error e => .error e
      | .ok perm =>
        let spwseq := perm.map (fun k => a.spw_array.getD k 0)
        let ia2 := spwseq.foldl
          (fun acc spw => acc ++ maskedGet index_array
            (a.flex_spw_id_array.map (fun x => decide (x = spw)))) []
        let tf2 := ia2.map (fun i => a.freq_array.getD i 0)
        let ts2 := ia2.map (fun i => a.flex_spw_id_array.getD i 0)
        match coStr with
        | none => .ok (some ia2, [])
        | some s =>
          (sortChannelsApply a s ia2 tf2 ts2 (fun _ => true)).map
            (fun ia => (some ia, []))
    | none =>
      match coStr with
      | none => .ok (none, [.noSortCriteria])
      | some s =>
        (sortChannelsApply a s index_array a.freq_array a.flex_spw_id_array
          (fun _ => true)).map (fun ia => (some ia, []))

/-- Everything in `_sort_freq_helper` before the final ascending check:
either an early `None` (warning) return, a raised `ValueError`, or the
computed candidate channel-index array. -/
def sortIndexCore (a : SortArgs) :
    Except SortErr (Option (List ℕ) × List SortWarning) :=
  if a.spw_order.isNone && a.channel_order.isNone then
    .ok (none, [.noSortCriteria])
  else
    match a.channel_order with
    | some (.arr co) =>
      let w := (if a.select_spw.isSome then [SortWarning.selectSpwIgnoredForChanArr]
          else []) ++
        (if a.spw_order.isSome then [SortWarning.spwOrderIgnoredForChanArr] else [])
      if co.length = a.Nfreqs ∧ npSortN co = List.range a.Nfreqs then .ok (some co, w)
      else .error .badChannelOrderArr
    | some (.str s) => sortIndexCoreNoArr a (some s)
    | none => sortIndexCoreNoArr a none

/-- `_sort_freq_helper`: the core computation followed by the final
ascending no-op check (lines 313-317). -/
def _sort_freq_helper (a : SortArgs) :
    Except SortErr (Option (List ℕ) × List SortWarning) :=
  match sortIndexCore a with
  | .error e => .error e
  | .ok (none, w) => .ok (none, w)
  | .ok (some ia, w) => if npStrictAscN ia then .ok (none, w) else .ok (some ia, w)

/-! ### Permutation facts about the sorting primitives -/

theorem maskedGet_nil_left {α : Type} (m : List Bool) :
    maskedGet ([] : List α) m = [] := by
  cases m <;> rfl

theorem maskedGet_nil_right {α : Type} (l : List α) :
    maskedGet l ([] : List Bool) = [] := by
  cases l <;> rfl

theorem maskedGet_cons {α : Type} (x : α) (xs : List α) (b : Bool) (ms : List Bool) :
    maskedGet (x :: xs) (b :: ms) =
      if b then x :: maskedGet xs ms else maskedGet xs ms := by
  cases b <;> simp [maskedGet, List.zip_cons_cons, List.filter_cons]

theorem insertLe_perm {α : Type} (le : α → α → Bool) (x : α) (l : List α) :
    List.Perm (insertLe le x l) (x :: l) := by
  induction l with
  | nil => rfl
  | cons y ys ih =>
    rw [insertLe]
    by_cases h : le x y = true
    · rw [if_pos h]
    · rw [if_neg h]
      exact ((ih.cons y).trans (List.Perm.swap x y ys))

theorem insertionSort_perm {α : Type} (le : α → α → Bool) (l : List α) :
    List.Perm (insertionSort le l) l := by
  induction l with
  | nil => rfl
  | cons x xs ih =>
    rw [insertionSort, List.foldr_cons]
    exact (insertLe_perm le x _).trans (ih.cons x)

theorem map_getD_range {α : Type} (l : List α) (d : α) :
    (List.range l.length).map (fun i => l.getD i d) = l := by
  apply List.ext_getElem
  · simp
  · intro i h1 h2
    simp [List.getD_eq_getElem?_getD, List.getElem?_eq_getElem h2]

theorem perm_map_getD {α : Type} (l : List α) (d : α) {p : List ℕ}
    (h : List.Perm p (List.range l.length)) :
    List.Perm (p.map (fun i => l.getD i d)) l := by
  have := h.map (fun i => l.getD i d)
  rwa [map_getD_range] at this

theorem maskedGet_length_congr {α β : Type} (l₁ : List α) (l₂ : List β)
    (m : List Bool) (h : l₁.length = l₂.length) :
    (maskedGet l₁ m).length = (maskedGet l₂ m).length := by
  induction m generalizing l₁ l₂ with
  | nil => rw [maskedGet_nil_right, maskedGet_nil_right]; rfl
  | cons b ms ih =>
    cases l₁ with
    | nil =>
      cases l₂ with
      | nil => rfl
      | cons y ys => exact absurd h (by simp)
    | cons x xs =>
      cases l₂ with
      | nil => exact absurd h (by simp)
      | cons y ys =>
        have h' : xs.length = ys.length := by simpa using h
        rw [maskedGet_cons, maskedGet_cons]
        cases b
        · simpa using ih xs ys h'
        · simpa using ih xs ys h'

theorem maskedSet_length {α : Type} :
    ∀ (ia : List α) (m : List Bool) (v : List α),
      (maskedSet ia m v).length = ia.length
  | [], _, _ => by rw [maskedSet]
  | x :: xs, [], v => by rw [maskedSet]
  | x :: xs, true :: ms, v :: vs => by
    rw [maskedSet, List.length_cons, List.length_cons, maskedSet_length xs ms vs]
  | x :: xs, true :: ms, [] => by
    rw [maskedSet, List.length_cons, List.length_cons, maskedSet_length xs ms []]
  | x :: xs, false :: ms, vs => by
    rw [maskedSet, List.length_cons, List.length_cons, maskedSet_length xs ms vs]

theorem maskedGet_not_append_perm {α : Type} :
    ∀ (ia : List α) (m : List Bool), m.length = ia.length →
      List.Perm (maskedGet ia m ++ maskedGet ia (m.map (fun b => !b))) ia
  | [], m, _ => by rw [maskedGet_nil_left, maskedGet_nil_left]; rfl
  | x :: xs, [], h => absurd h (by simp)
  | x :: xs, b :: ms, h => by
    have h' : ms.length = xs.length := by simpa using h
    cases b
    · rw [List.map_cons, maskedGet_cons, maskedGet_cons]
      simp only [Bool.not_false, Bool.false_eq_true, if_false, if_pos]
      exact List.perm_middle.trans ((maskedGet_not_append_perm xs ms h').cons x)
    · rw [List.map_cons, maskedGet_cons, maskedGet_cons]
      simp only [Bool.not_true, Bool.false_eq_true, if_false, if_pos, List.cons_append]
      exact (maskedGet_not_append_perm xs ms h').cons x

theorem maskedSet_perm {α : Type} :
    ∀ (ia : List α) (m : List Bool) (v : List α), m.length = ia.length →
      v.length = (maskedGet ia m).length →
      List.Perm (maskedSet ia m v) (v ++ maskedGet ia (m.map (fun b => !b)))
  | [], m, v, _, hv => by
    rw [maskedGet_nil_left] at hv
    simp only [List.length_nil] at hv
    rw [maskedSet, List.length_eq_zero.mp hv, maskedGet_nil_left]
    rfl
  | x :: xs, [], v, hm, _ => absurd hm (by simp)
  | x :: xs, true :: ms, v :: vs, hm, hv => by
    have hm' : ms.length = xs.length := by simpa using hm
    rw [maskedGet_cons, if_pos rfl] at hv
    have hv' : vs.length = (maskedGet xs ms).length := by simpa using hv
    rw [maskedSet, List.map_cons, maskedGet_cons]
    simp only [Bool.not_true, Bool.false_eq_true, if_false, List.cons_append]
    exact (maskedSet_perm xs ms vs hm' hv').cons v
  | x :: xs, true :: ms, [], hm, hv => by
    rw [maskedGet_cons, if_pos rfl] at hv
    exact absurd hv (by simp)
  | x :: xs, false :: ms, vs, hm, hv => by
    have hm' : ms.length = xs.length := by simpa using hm
    rw [maskedGet_cons, if_neg (by simp)] at hv
    rw [maskedSet, List.map_cons, maskedGet_cons]
    simp only [Bool.not_false, if_pos]
    exact ((maskedSet_perm xs ms vs hm' hv).cons x).trans List.perm_middle.symm

theorem sortChannelsStep_perm (co : String) (tf : List ℚ) (ts : List ℤ)
    (sp : ℤ → Bool) (ia : List ℕ) (idx : ℤ)
    (hf : tf.length = ia.length) (hs : ts.length = ia.length) :
    List.Perm (sortChannelsStep co tf ts sp ia idx) ia := by
  rw [sortChannelsStep]
  by_cases hsp : sp idx = true
  · rw [if_pos hsp]
    dsimp only
    have hmask : (ts.map (fun x => decide (x = idx))).length = ia.length := by
      rw [List.length_map]; exact hs
    have hflen : (maskedGet tf (ts.map (fun x => decide (x = idx)))).length =
        (maskedGet ia (ts.map (fun x => decide (x = idx)))).length :=
      maskedGet_length_congr tf ia _ hf
    have hargsort : List.Perm (npArgsortQ (maskedGet tf (ts.map (fun x => decide (x = idx)))))
        (List.range (maskedGet ia (ts.map (fun x => decide (x = idx)))).length) := by
      rw [npArgsortQ, ← hflen]
      exact insertionSort_perm _ _
    have hsub : List.Perm ((npArgsortQ (maskedGet tf (ts.map (fun x => decide (x = idx))))).map
          (fun k => (maskedGet ia (ts.map (fun x => decide (x = idx)))).getD k 0))
        (maskedGet ia (ts.map (fun x => decide (x = idx)))) :=
      perm_map_getD _ 0 hargsort
    by_cases hneg : co.data.headD ' ' = '-'
    · rw [if_pos hneg]
      have hrev := (List.reverse_perm _).trans hsub
      refine (maskedSet_perm ia _ _ hmask hrev.length_eq).trans ?_
      exact (hrev.append_right _).trans (maskedGet_not_append_perm ia _ hmask)
    · rw [if_neg hneg]
      refine (maskedSet_perm ia _ _ hmask hsub.length_eq).trans ?_
      exact (hsub.append_right _).trans (maskedGet_not_append_perm ia _ hmask)
  · rw [if_neg hsp]

theorem sortChannelsFold_perm (co : String) (tf : List ℚ) (ts : List ℤ)
    (sp : ℤ → Bool) (spws : List ℤ) :
    ∀ (ia : List ℕ), tf.length = ia.length → ts.length = ia.length →
      List.Perm (spws.foldl (sortChannelsStep co tf ts sp) ia) ia := by
  induction spws with
  | nil => intro ia _ _; rfl
  | cons idx rest ih =>
    intro ia hf hs
    rw [List.foldl_cons]
    have hstep := sortChannelsStep_perm co tf ts sp ia idx hf hs
    have hlen := hstep.length_eq
    exact (ih _ (hf.trans hlen.symm) (hs.trans hlen.symm)).trans hstep

theorem sortChannelsApply_perm (a : SortArgs) (s : String) (ia : List ℕ)
    (tf : List ℚ) (ts : List ℤ) (sp : ℤ → Bool) (out : List ℕ)
    (hf : tf.length = ia.length) (hs : ts.length = ia.length)
    (h : sortChannelsApply a s ia tf ts sp = .ok out) : List.Perm out ia := by
  rw [sortChannelsApply] at h
  split at h
  · exact absurd h (by simp)
  · injection h with h
    rw [← h]
    exact sortChannelsFold_perm s tf ts sp a.spw_array ia hf hs

theorem foldl_append_eq_flatten {α β : Type} (f : α → List β) (l : List α) :
    ∀ init : List β,
      l.foldl (fun acc x => acc ++ f x) init = init ++ (l.map f).flatten := by
  induction l with
  | nil => intro init; simp
  | cons x xs ih =>
    intro init
    rw [List.foldl_cons, ih, List.map_cons, List.flatten_cons, List.append_assoc]

theorem maskedGet_map_zip_filter {α β : Type} (xs : List α) (l : List β)
    (P : β → Bool) :
    maskedGet xs (l.map P) =
      ((xs.zip l).filter (fun p => P p.2)).map Prod.fst := by
  rw [maskedGet, List.zip_map_right, List.filter_map, List.map_map]
  rfl

theorem flatten_filter_key_perm {α : Type} (k : α → ℤ) :
    ∀ (spws : List ℤ) (E : List α), spws.Nodup → (∀ e ∈ E, k e ∈ spws) →
      List.Perm ((spws.map (fun s => E.filter (fun e => decide (k e = s)))).flatten) E := by
  intro spws
  induction spws with
  | nil =>
    intro E _ hcov
    have hE : E = [] := by
      cases E with
      | nil => rfl
      | cons e es => exact absurd (hcov e (by simp)) (by simp)
    rw [hE]
    rfl
  | cons s rest ih =>
    intro E hnd hcov
    rw [List.map_cons, List.flatten_cons]
    have hnds : s ∉ rest := (List.nodup_cons.mp hnd).1
    have hndr : rest.Nodup := (List.nodup_cons.mp hnd).2
    have hmapeq : rest.map (fun t => E.filter (fun e => decide (k e = t))) =
        rest.map (fun t =>
          (E.filter (fun e => !decide (k e = s))).filter
            (fun e => decide (k e = t))) := by
      apply List.map_congr_left
      intro t ht
      rw [List.filter_filter]
      apply List.filter_congr
      intro e _
      by_cases hk : k e = t
      · have hts : ¬ t = s := fun hts => hnds (hts ▸ ht)
        simp [hk, hts]
      · simp [hk]
    rw [hmapeq]
    have hcov' : ∀ e ∈ E.filter (fun e => !decide (k e = s)), k e ∈ rest := by
      intro e he
      rw [List.mem_filter] at he
      have hmem := hcov e he.1
      have hne : ¬ (k e = s) := by simpa using he.2
      simp only [List.mem_cons] at hmem
      rcases hmem with hmem | hmem
      · exact absurd hmem hne
      · exact hmem
    have hrest := ih (E.filter (fun e => !decide (k e = s))) hndr hcov'
    exact (hrest.append_left _).trans (List.filter_append_perm _ E)

theorem spwReorderFold_perm (n : ℕ) (flex spws spwseq : List ℤ)
    (hflen : flex.length = n) (hsub : ∀ x ∈ flex, x ∈ spws)
    (hnodup : spws.Nodup) (hseq : List.Perm spwseq spws) :
    List.Perm
      (spwseq.foldl (fun acc spw => acc ++ maskedGet (List.range n)
        (flex.map (fun x => decide (x = spw)))) [])
      (List.range n) := by
  rw [foldl_append_eq_flatten, List.nil_append]
  have hb : spwseq.map (fun spw => maskedGet (List.range n)
        (flex.map (fun x => decide (x = spw)))) =
      (spwseq.map (fun spw => ((List.range n).zip flex).filter
        (fun p => decide (p.2 = spw)))).map (List.map Prod.fst) := by
    rw [List.map_map]
    apply List.map_congr_left
    intro s _
    exact maskedGet_map_zip_filter (List.range n) flex (fun x => decide (x = s))
  rw [hb, ← List.map_flatten]
  have hperm1 : List.Perm
      (spwseq.map (fun s => ((List.range n).zip flex).filter
        (fun p => decide (p.2 = s))))
      (spws.map (fun s => ((List.range n).zip flex).filter
        (fun p => decide (p.2 = s)))) := hseq.map _
  have hcov : ∀ e ∈ (List.range n).zip flex, (fun p : ℕ × ℤ => p.2) e ∈ spws :=
    fun e he => hsub e.2 (List.of_mem_zip he).2
  have hpart := flatten_filter_key_perm (fun p : ℕ × ℤ => p.2) spws
    ((List.range n).zip flex) hnodup hcov
  have hall := (hperm1.flatten.trans hpart).map Prod.fst
  rwa [List.map_fst_zip _ _ (by rw [List.length_range, hflen])] at hall

theorem spwOrderPerm_perm (a : SortArgs) (so : OrderArg) (perm : List ℕ)
    (hlen : a.spw_array.length = a.Nspws)
    (h : spwOrderPerm a so = .ok perm) :
    List.Perm perm (List.range a.spw_array.length) := by
  cases so with
  | arr p =>
    rw [spwOrderPerm] at h
    split at h
    · injection h with h
      rename_i hvalid
      rw [← h, hlen]
      have hp : List.Perm p (npSortN p) := (insertionSort_perm _ p).symm
      rw [hvalid.2] at hp
      exact hp
    · exact absurd h (by simp)
  | str s =>
    rw [spwOrderPerm] at h
    split at h
    · exact absurd h (by simp)
    · split at h
      · injection h with h
        rw [← h]
        have hbase : List.Perm
            (if s = "number" ∨ s = "-number" then npArgsortZ a.spw_array
             else npArgsortQ (a.spw_array.map (fun idx =>
               npMedianQ (maskedGet a.freq_array
                 (a.flex_spw_id_array.map (fun x => decide (x = idx)))))))
            (List.range a.spw_array.length) := by
          split
          · rw [npArgsortZ]
            exact insertionSort_perm _ _
          · rw [npArgsortQ, List.length_map]
            exact insertionSort_perm _ _
        split
        · exact (List.reverse_perm _).trans hbase
        · exact hbase
      · injection h with h
        rw [← h, hlen]

theorem except_map_eq_ok {ε α β : Type} {f : α → β} {x : Except ε α} {y : β}
    (h : Except.map f x = .ok y) : ∃ a, x = .ok a ∧ f a = y := by
  cases x with
  | error e => exact absurd h (by simp [Except.map])
  | ok a => exact ⟨a, rfl, by simpa [Except.map] using h⟩

theorem sortIndexCoreNoArr_some_perm (a : SortArgs) (coStr : Option String)
    (ia : List ℕ) (w : List SortWarning)
    (hfreq : a.freq_array.length = a.Nfreqs)
    (hflex : a.flex_spw_id_array.length = a.Nfreqs)
    (hspwlen : a.spw_array.length = a.Nspws)
    (hnodup : a.spw_array.Nodup)
    (hsub : ∀ x ∈ a.flex_spw_id_array, x ∈ a.spw_array)
    (h : sortIndexCoreNoArr a coStr = .ok (some ia, w)) :
    List.Perm ia (List.range a.Nfreqs) := by
  have hfr : a.freq_array.length = (List.range a.Nfreqs).length := by
    rw [List.length_range]; exact hfreq
  have hfl : a.flex_spw_id_array.length = (List.range a.Nfreqs).length := by
    rw [List.length_range]; exact hflex
  unfold sortIndexCoreNoArr at h
  dsimp only at h
  cases hsel : a.select_spw with
  | some sel =>
    rw [hsel] at h
    dsimp only at h
    cases hco : coStr with
    | none =>
      rw [hco] at h
      exact absurd h (by simp)
    | some s =>
      rw [hco] at h
      dsimp only at h
      obtain ⟨out, happ, hfo⟩ := except_map_eq_ok h
      simp only [Prod.mk.injEq, Option.some.injEq] at hfo
      rw [← hfo.1]
      exact sortChannelsApply_perm a s _ _ _ _ out hfr hfl happ
  | none =>
    rw [hsel] at h
    dsimp only at h
    cases hso : a.spw_order with
    | some so =>
      rw [hso] at h
      dsimp only at h
      rcases hperm : spwOrderPerm a so with e | perm
      · rw [hperm] at h
        exact absurd h (by simp)
      · rw [hperm] at h
        dsimp only at h
        have hia2 : List.Perm
            ((perm.map (fun k => a.spw_array.getD k 0)).foldl
              (fun acc spw => acc ++ maskedGet (List.range a.Nfreqs)
                (a.flex_spw_id_array.map (fun x => decide (x = spw)))) [])
            (List.range a.Nfreqs) := by
          apply spwReorderFold_perm a.Nfreqs a.flex_spw_id_array a.spw_array
            _ hflex hsub hnodup
          exact perm_map_getD a.spw_array 0 (spwOrderPerm_perm a so perm hspwlen hperm)
        cases hco : coStr with
        | none =>
          rw [hco] at h
          simp only [Except.ok.injEq, Prod.mk.injEq, Option.some.injEq] at h
          rw [← h.1]
          exact hia2
        | some s =>
          rw [hco] at h
          dsimp only at h
          obtain ⟨out, happ, hfo⟩ := except_map_eq_ok h
          simp only [Prod.mk.injEq, Option.some.injEq] at hfo
          rw [← hfo.1]
          refine (sortChannelsApply_perm a s _ _ _ _ out ?_ ?_ happ).trans hia2
          · rw [List.length_map]
          · rw [List.length_map]
    | none =>
      rw [hso] at h
      dsimp only at h
      cases hco : coStr with
      | none =>
        rw [hco] at h
        exact absurd h (by simp)
      | some s =>
        rw [hco] at h
        dsimp only at h
        obtain ⟨out, happ, hfo⟩ := except_map_eq_ok h
        simp only [Prod.mk.injEq, Option.some.injEq] at hfo
        rw [← hfo.1]
        exact sortChannelsApply_perm a s _ _ _ _ out hfr hfl happ

theorem sortIndexCore_some_perm (a : SortArgs) (ia : List ℕ)
    (w : List SortWarning)
    (hfreq : a.freq_array.length = a.Nfreqs)
    (hflex : a.flex_spw_id_array.length = a.Nfreqs)
    (hspwlen : a.spw_array.length = a.Nspws)
    (hnodup : a.spw_array.Nodup)
    (hsub : ∀ x ∈ a.flex_spw_id_array, x ∈ a.spw_array)
    (h : sortIndexCore a = .ok (some ia, w)) :
    List.Perm ia (List.range a.Nfreqs) := by
  rw [sortIndexCore] at h
  split at h
  · exact absurd h (by simp)
  · split at h
    · rename_i co hco
      dsimp only at h
      by_cases hvalid : co.length = a.Nfreqs ∧ npSortN co = List.range a.Nfreqs
      · rw [if_pos hvalid] at h
        injection h with h
        simp only [Prod.mk.injEq, Option.some.injEq] at h
        rw [← h.1]
        have hp : List.Perm co (npSortN co) := (insertionSort_perm _ co).symm
        rw [hvalid.2] at hp
        exact hp
      · rw [if_neg hvalid] at h
        exact absurd h (by simp)
    · exact sortIndexCoreNoArr_some_perm a _ ia w hfreq hflex hspwlen hnodup hsub h
    · exact sortIndexCoreNoArr_some_perm a none ia w hfreq hflex hspwlen hnodup hsub h

theorem sortIndexCoreNoArr_none_iff (a : SortArgs) (coStr : Option String) :
    (∃ w, sortIndexCoreNoArr a coStr = .ok (none, w)) ↔
      (a.select_spw.isSome = true ∧ coStr = none) ∨
      (a.select_spw = none ∧ a.spw_order = none ∧ coStr = none) := by
  constructor
  · rintro ⟨w, hw⟩
    unfold sortIndexCoreNoArr at hw
    dsimp only at hw
    revert hw
    cases hsel : a.select_spw with
    | some sel =>
      intro hw
      cases hco : coStr with
      | none => exact Or.inl ⟨by simp [hsel], rfl⟩
      | some s =>
        rw [hco] at hw
        dsimp only at hw
        obtain ⟨out, _, hfo⟩ := except_map_eq_ok hw
        exact absurd hfo (by simp)
    | none =>
      cases hso : a.spw_order with
      | some so =>
        intro hw
        dsimp only at hw
        revert hw
        rcases hperm : spwOrderPerm a so with e | perm
        · intro hw
          exact absurd hw (by simp)
        · intro hw
          dsimp only at hw
          revert hw
          cases hco : coStr with
          | none =>
            intro hw
            exact absurd hw (by simp)
          | some s =>
            intro hw
            dsimp only at hw
            obtain ⟨out, _, hfo⟩ := except_map_eq_ok hw
            exact absurd hfo (by simp)
      | none =>
        intro hw
        dsimp only at hw
        revert hw
        cases hco : coStr with
        | none => intro _; exact Or.inr ⟨rfl, rfl, rfl⟩
        | some s =>
          intro hw
          dsimp only at hw
          obtain ⟨out, _, hfo⟩ := except_map_eq_ok hw
          exact absurd hfo (by simp)
  · rintro (⟨hsel, hco⟩ | ⟨hsel, hso, hco⟩)
    · rw [Option.isSome_iff_exists] at hsel
      obtain ⟨sel, hsel⟩ := hsel
      refine ⟨(if a.spw_order.isSome then [SortWarning.spwOrderIgnoredForSelect]
        else []) ++ [SortWarning.selectSpwWithoutChannelOrder], ?_⟩
      unfold sortIndexCoreNoArr
      rw [hsel, hco]
    · refine ⟨[SortWarning.noSortCriteria], ?_⟩
      unfold sortIndexCoreNoArr
      rw [hsel, hso, hco]

theorem sortIndexCore_none_iff (a : SortArgs) :
    (∃ w, sortIndexCore a = .ok (none, w)) ↔
      (a.spw_order = none ∧ a.channel_order = none) ∨
      (a.select_spw.isSome = true ∧ a.channel_order = none) := by
  rw [sortIndexCore]
  by_cases hb : (a.spw_order.isNone && a.channel_order.isNone) = true
  · rw [if_pos hb]
    simp only [Bool.and_eq_true, Option.isNone_iff_eq_none] at hb
    constructor
    · intro _
      exact Or.inl hb
    · intro _
      exact ⟨[.noSortCriteria], rfl⟩
  · rw [if_neg hb]
    simp only [Bool.and_eq_true, Option.isNone_iff_eq_none, not_and_or] at hb
    cases hco : a.channel_order with
    | some oa =>
      cases oa with
      | arr co =>
        constructor
        · rintro ⟨w, hw⟩
          dsimp only at hw
          revert hw
          by_cases hvalid : co.length = a.Nfreqs ∧ npSortN co = List.range a.Nfreqs
          · rw [if_pos hvalid]
            intro hw
            exact absurd hw (by simp)
          · rw [if_neg hvalid]
            intro hw
            exact absurd hw (by simp)
        · rintro (⟨_, h2⟩ | ⟨_, h2⟩) <;> exact absurd h2 (Option.some_ne_none _)
      | str s =>
        rw [sortIndexCoreNoArr_none_iff a (some s)]
        constructor
        · rintro (⟨_, h2⟩ | ⟨_, _, h2⟩) <;> exact absurd h2 (Option.some_ne_none _)
        · rintro (⟨_, h2⟩ | ⟨_, h2⟩) <;> exact absurd h2 (Option.some_ne_none _)
    | none =>
      rw [sortIndexCoreNoArr_none_iff a none]
      have hso : ¬ a.spw_order = none := by
        rcases hb with hb | hb
        · exact hb
        · exact absurd hco hb
      constructor
      · rintro (⟨h1, _⟩ | ⟨_, h2, _⟩)
        · exact Or.inr ⟨h1, rfl⟩
        · exact absurd h2 hso
      · rintro (⟨h1, _⟩ | ⟨h1, _⟩)
        · exact absurd h1 hso
        · exact Or.inl ⟨h1, rfl⟩

/-- C8 (amended): the sort-order computation returns `None` in exactly
*three* situations — (1) neither `spw_order` nor `channel_order` was given
(with a warning); (2) `select_spw` was given without `channel_order` (with
a warning; any `spw_order` is ignored); (3) the computed channel index
permutation is already strictly ascending. Otherwise it returns the
computed channel-index array, which (for a well-formed object: array
lengths match `Nfreqs`/`Nspws`, window numbers are unique and every
channel's window id is a declared window) is a non-ascending permutation of
the channel indices `0..Nfreqs-1`. -/
theorem sort_freq_helper_spec (a : SortArgs)
    (hfreq : a.freq_array.length = a.Nfreqs)
    (hflex : a.flex_spw_id_array.length = a.Nfreqs)
    (hspwlen : a.spw_array.length = a.Nspws)
    (hnodup : a.spw_array.Nodup)
    (hsub : ∀ x ∈ a.flex_spw_id_array, x ∈ a.spw_array) :
    ((∃ w, _sort_freq_helper a = .ok (none, w)) ↔
      (a.spw_order = none ∧ a.channel_order = none) ∨
      (a.select_spw.isSome = true ∧ a.channel_order = none) ∨
      (∃ ia w, sortIndexCore a = .ok (some ia, w) ∧ npStrictAscN ia = true)) ∧
    (∀ ia w, _sort_freq_helper a = .ok (some ia, w) →
      List.Perm ia (List.range a.Nfreqs) ∧ npStrictAscN ia = false) := by
  constructor
  · constructor
    · rintro ⟨w, hw⟩
      rw [_sort_freq_helper] at hw
      split at hw
      · exact absurd hw (by simp)
      · rename_i wc heq
        rcases (sortIndexCore_none_iff a).mp ⟨wc, heq⟩ with h | h
        · exact Or.inl h
        · exact Or.inr (Or.inl h)
      · rename_i iac wc heq
        by_cases hasc : npStrictAscN iac = true
        · exact Or.inr (Or.inr ⟨iac, wc, heq, hasc⟩)
        · rw [if_neg (by simp [hasc])] at hw
          exact absurd hw (by simp)
    · intro h
      have hnone : (∃ w, sortIndexCore a = .ok (none, w)) ∨
          (∃ ia w, sortIndexCore a = .ok (some ia, w) ∧ npStrictAscN ia = true) := by
        rcases h with h | h | h
        · exact Or.inl ((sortIndexCore_none_iff a).mpr (Or.inl h))
        · exact Or.inl ((sortIndexCore_none_iff a).mpr (Or.inr h))
        · exact Or.inr h
      rcases hnone with ⟨w, hw⟩ | ⟨ia, w, hc, hasc⟩
      · exact ⟨w, by rw [_sort_freq_helper, hw]⟩
      · exact ⟨w, by rw [_sort_freq_helper, hc]; simp [hasc]⟩
  · intro ia w hw
    rw [_sort_freq_helper] at hw
    split at hw
    · exact absurd hw (by simp)
    · exact absurd hw (by simp)
    · rename_i iac wc heq
      by_cases hasc : npStrictAscN iac = true
      · rw [if_pos hasc] at hw
        exact absurd hw (by simp)
      · rw [if_neg hasc] at hw
        injection hw with hw
        simp only [Prod.mk.injEq, Option.some.injEq] at hw
        rw [← hw.1]
        refine ⟨sortIndexCore_some_perm a iac wc hfreq hflex hspwlen hnodup hsub heq, ?_⟩
        simpa using hasc

/-- C8 counterexample input: two already-number-ordered windows, descending
window order requested via `spw_order="-number"`, `select_spw=1` given and
`channel_order` omitted. -/
def sortCounterArgs : SortArgs :=
  ⟨2, [1, 2], 2, [1, 2], [1, 2], some (.str "-number"), none, some (.one 1)⟩

/-- C8 counterexample: with `spw_order="-number"` given (so the "no
ordering criteria" situation does not apply) and `select_spw` given without
`channel_order`, the helper returns `None` after warning — yet the same
input without `select_spw` computes the non-ascending permutation `[1, 0]`,
so the input is *not* already sorted under the requested window order.
This refutes "returns None in exactly two situations". -/
theorem sort_freq_helper_none_third_situation :
    _sort_freq_helper sortCounterArgs =
      .ok (none, [.spwOrderIgnoredForSelect, .selectSpwWithoutChannelOrder]) ∧
    sortCounterArgs.spw_order ≠ none ∧
    sortCounterArgs.channel_order = none ∧
    _sort_freq_helper { sortCounterArgs with select_spw := none } =
      .ok (some [1, 0], []) := by
  refine ⟨by decide, by decide, by decide, by decide⟩

/-- Witness for C8: the select-free counterexample run returns the
computed array `[1, 0]`, a non-ascending permutation of the channel
indices. -/
theorem sort_freq_helper_spec_witness :
    (∀ ia w, _sort_freq_helper { sortCounterArgs with select_spw := none } =
        .ok (some ia, w) →
      List.Perm ia (List.range 2) ∧ npStrictAscN ia = false) ∧
    _sort_freq_helper { sortCounterArgs with select_spw := none } =
      .ok (some [1, 0], []) :=
  ⟨(sort_freq_helper_spec { sortCounterArgs with select_spw := none }
      (by decide) (by decide) (by decide) (by decide) (by decide)).2,
   by decide⟩
